import Mathlib

/-!
Shallow embedding of the content acquisition & synchronization pipeline of
the xhs_ai_summary repository: the download manager
(src/mobile/src/services/download-manager.ts), the file manager
(src/mobile/src/utils/file-manager.ts), the AI analysis service
(src/mobile/src/services/ai-analysis.ts) and the thin CRUD repositories they
call (src/mobile/src/db/repositories/*).  Async functions become pure state
passing over an explicit database state; the external network services
(crawl API, HTTP downloads, HEAD probes, analyze API) become an environment
of oracles.  Calls to the external download and analyze services are logged
in the run state so that "no transfer was attempted" and "the remote service
was not called" are statable.
-/

namespace Xhs

/-- Post.downloadStatus from src/mobile/src/models/post.ts:
'pending' | 'downloading' | 'completed' | 'partial' | 'failed'.
('partial' is a Lean keyword; it is rendered `partialStatus`.) -/
inductive PostDownloadStatus
  | pending
  | downloading
  | completed
  | partialStatus
  | failed
  deriving DecidableEq

/-- Media type from src/mobile/src/models/media.ts: 'image' | 'video'. -/
inductive MediaType
  | image
  | video
  deriving DecidableEq

/-- Media.downloadStatus from src/mobile/src/models/media.ts:
'pending' | 'downloading' | 'completed' | 'failed' | 'skipped'. -/
inductive MediaDownloadStatus
  | pending
  | downloading
  | completed
  | failed
  | skipped
  deriving DecidableEq

/-- TaskStatus from src/mobile/src/models/download-task.ts:
'queued' | 'crawling' | 'downloading' | 'analyzing' | 'completed' | 'failed'. -/
inductive TaskStatus
  | queued
  | crawling
  | downloading
  | analyzing
  | completed
  | failed
  deriving DecidableEq

/-- Post record (the fields the pipeline reads and writes). -/
structure Post where
  id : String
  url : String
  title : Option String
  downloadStatus : PostDownloadStatus
  deriving DecidableEq

/-- One entry of CrawledContent.media (xhs-crawler.ts):
{ type: 'image' | 'video'; url: string; fileSize?: number }. -/
structure MediaItem where
  type : MediaType
  url : String
  fileSize : Option Nat
  deriving DecidableEq

/-- CrawledContent from src/mobile/src/services/xhs-crawler.ts. -/
structure CrawledContent where
  title : String
  text : String
  authorName : Option String
  authorId : Option String
  originalDate : Option Int
  viewCount : Option Nat
  likeCount : Option Nat
  media : List MediaItem
  deriving DecidableEq

/-- CrawlResult from src/mobile/src/services/xhs-crawler.ts. -/
structure CrawlResult where
  success : Bool
  content : Option CrawledContent
  errorMessage : Option String
  deriving DecidableEq

/-- Media record from src/mobile/src/models/media.ts.  Record ids are
numbers drawn from a database-wide counter (the source uses generateId()
UUIDs; freshness is what matters). -/
structure Media where
  id : Nat
  postId : String
  type : MediaType
  remoteUrl : String
  localPath : Option String
  fileSize : Option Nat
  downloadStatus : MediaDownloadStatus
  sortOrder : Nat
  deriving DecidableEq

/-- Content record from src/mobile/src/models/content.ts. -/
structure Content where
  id : Nat
  postId : String
  text : String
  authorName : Option String
  authorId : Option String
  originalDate : Option Int
  viewCount : Option Nat
  likeCount : Option Nat
  deriving DecidableEq

/-- AIResult record from src/mobile/src/models/ai-result.ts. -/
structure AIResult where
  id : Nat
  postId : String
  labels : List String
  summary : String
  groupId : Option Nat
  contentType : Option String
  modelVersion : String
  deriving DecidableEq

/-- Group record from src/mobile/src/models/group.ts. -/
structure Group where
  id : Nat
  name : String
  postCount : Nat
  deriving DecidableEq

/-- DownloadTask record from src/mobile/src/models/download-task.ts. -/
structure DownloadTask where
  id : Nat
  postId : String
  status : TaskStatus
  progress : ℚ
  retryCount : Nat
  errorMessage : Option String
  deriving DecidableEq

/-- DownloadResult from src/mobile/src/utils/file-manager.ts. -/
structure DownloadResult where
  success : Bool
  localPath : Option String
  fileSize : Option Nat
  errorMessage : Option String
  deriving DecidableEq

/-- The data part of AnalyzeResponse from src/mobile/src/services/api-client.ts. -/
structure AnalyzeData where
  labels : List String
  summary : String
  contentType : Option String
  suggestedGroupName : Option String
  modelVersion : String
  deriving DecidableEq

/-- AnalyzeResponse from src/mobile/src/services/api-client.ts. -/
structure AnalyzeResponse where
  success : Bool
  data : Option AnalyzeData
  deriving DecidableEq

/-- AnalysisServiceResult from src/mobile/src/services/ai-analysis.ts. -/
structure AnalysisServiceResult where
  success : Bool
  aiResult : Option AIResult
  errorMessage : Option String
  deriving DecidableEq

/-- The SQLite database reached through the repositories, as one record.
`nextId` models generateId(): a fresh identifier for every created row.
`tasks` is the download_tasks table of src/mobile/src/db/schema.ts; no
repository for it exists in the source, so no embedded operation touches it. -/
structure DbState where
  posts : List Post
  contents : List Content
  media : List Media
  aiResults : List AIResult
  groups : List Group
  tasks : List DownloadTask
  nextId : Nat
  deriving DecidableEq

/-- One notifyProgress broadcast: (postId, progress, status). -/
structure ProgressEvent where
  postId : String
  progress : ℚ
  status : PostDownloadStatus
  deriving DecidableEq

/-- State threaded through one pipeline run: the database plus logs of the
observable effects (progress broadcasts, file transfers started, analyze API
calls). -/
structure RunState where
  db : DbState
  trace : List ProgressEvent
  downloads : List (String × String)
  analyzeCalls : Nat
  deriving DecidableEq

/-- Oracles for the external services: the crawl API (crawlPost), the HEAD
content-length probe (checkRemoteFileSize), the file download
(FileSystem.createDownloadResumable inside downloadFile) and the analyze API
(xhsApi.analyze, taking title?, text, mediaCount). -/
structure Env where
  crawl : String → CrawlResult
  contentLength : String → Option Nat
  download : String → String → DownloadResult
  analyze : Option String → String → Nat → AnalyzeResponse

/-! ## Constants and file-manager utilities -/

/-- MAX_VIDEO_SIZE_BYTES from src/mobile/src/utils/constants.ts:
100 * 1024 * 1024. -/
def MAX_VIDEO_SIZE_BYTES : Nat := 100 * 1024 * 1024

/-- getMediaDirectory from file-manager.ts (the document-directory prefix is
a fixed string; its value never matters). -/
def getMediaDirectory : MediaType → String
  | .image => "media/images/"
  | .video => "media/videos/"

/-- generateMediaFilename from file-manager.ts with the extension argument
omitted, as every pipeline caller omits it. -/
def generateMediaFilename (postId : String) (index : Nat) (type : MediaType) : String :=
  postId ++ "_" ++ toString index ++ "." ++ (match type with | .image => "jpg" | .video => "mp4")

/-- getMediaPath from file-manager.ts. -/
def getMediaPath (postId : String) (index : Nat) (type : MediaType) : String :=
  getMediaDirectory type ++ generateMediaFilename postId index type

/-- checkRemoteFileSize from file-manager.ts: the HEAD probe, none when the
request fails or reports no content-length. -/
def checkRemoteFileSize (env : Env) (url : String) : Option Nat :=
  env.contentLength url

/-- isVideoWithinLimit from file-manager.ts lines 170-177: unknown size is
allowed through; a known size passes iff size <= MAX_VIDEO_SIZE_BYTES. -/
def isVideoWithinLimit (env : Env) (url : String) : Bool :=
  match checkRemoteFileSize env url with
  | none => true
  | some size => size ≤ MAX_VIDEO_SIZE_BYTES

/-- downloadFile from file-manager.ts, as the pipeline sees it: it consults
the download oracle and its invocation is logged.  Its internal try/catch
returns a failed DownloadResult rather than throwing. -/
def downloadFile (env : Env) (url : String) (localPath : String) (s : RunState) :
    RunState × DownloadResult :=
  ({ s with downloads := s.downloads ++ [(url, localPath)] }, env.download url localPath)

/-! ## Repositories (src/mobile/src/db/repositories) -/

/-- getPostById from post-repository.ts. -/
def getPostById (db : DbState) (id : String) : Option Post :=
  db.posts.find? (fun p => p.id == id)

/-- updatePostStatus from post-repository.ts (updatePost restricted to the
downloadStatus field, which is how the pipeline calls it). -/
def updatePostStatus (db : DbState) (id : String) (status : PostDownloadStatus) : DbState :=
  { db with posts := db.posts.map (fun p => if p.id == id then { p with downloadStatus := status } else p) }

/-- getContentByPostId from content-repository.ts. -/
def getContentByPostId (db : DbState) (postId : String) : Option Content :=
  db.contents.find? (fun c => c.postId == postId)

/-- CreateContentInput as saveContent builds it. -/
structure CreateContentInput where
  postId : String
  text : String
  authorName : Option String
  authorId : Option String
  originalDate : Option Int
  viewCount : Option Nat
  likeCount : Option Nat
  deriving DecidableEq

/-- createContent from content-repository.ts. -/
def createContent (db : DbState) (input : CreateContentInput) : DbState × Content :=
  let c : Content :=
    { id := db.nextId, postId := input.postId, text := input.text,
      authorName := input.authorName, authorId := input.authorId,
      originalDate := input.originalDate, viewCount := input.viewCount,
      likeCount := input.likeCount }
  ({ db with contents := db.contents ++ [c], nextId := db.nextId + 1 }, c)

/-- CreateMediaInput from src/mobile/src/models/media.ts as downloadMedia
builds it. -/
structure CreateMediaInput where
  postId : String
  type : MediaType
  remoteUrl : String
  sortOrder : Nat
  fileSize : Option Nat
  deriving DecidableEq

/-- createMedia from media-repository.ts: a fresh record in state 'pending'
with no local path. -/
def createMedia (db : DbState) (input : CreateMediaInput) : DbState × Media :=
  let m : Media :=
    { id := db.nextId, postId := input.postId, type := input.type,
      remoteUrl := input.remoteUrl, localPath := none, fileSize := input.fileSize,
      downloadStatus := .pending, sortOrder := input.sortOrder }
  ({ db with media := db.media ++ [m], nextId := db.nextId + 1 }, m)

/-- createMediaBatch from media-repository.ts: createMedia on each input in
order. -/
def createMediaBatch (db : DbState) : List CreateMediaInput → DbState × List Media
  | [] => (db, [])
  | input :: rest =>
    let created := createMedia db input
    let batch := createMediaBatch created.1 rest
    (batch.1, created.2 :: batch.2)

/-- getMediaByPostId from media-repository.ts (rows of the post; the SQL
orders by sort_order, which no proved property depends on — creation order
is kept here). -/
def getMediaByPostId (db : DbState) (postId : String) : List Media :=
  db.media.filter (fun m => m.postId == postId)

/-- getMediaCountByPostId from media-repository.ts. -/
def getMediaCountByPostId (db : DbState) (postId : String) : Nat :=
  (getMediaByPostId db postId).length

/-- JavaScript truthiness of a string | null | undefined value: present and
not the empty string. -/
def truthyStr : Option String → Bool
  | none => false
  | some s => s != ""

/-- JavaScript truthiness of a number | null | undefined value: present and
not zero. -/
def truthyNat : Option Nat → Bool
  | none => false
  | some n => n != 0

/-- One row under updateMediaStatus from media-repository.ts: the status
always changes; localPath and fileSize only when passed and truthy
(`if (localPath) update.localPath = localPath; if (fileSize) ...`). -/
def applyMediaUpdate (m : Media) (status : MediaDownloadStatus)
    (localPath : Option String) (fileSize : Option Nat) : Media :=
  { m with
    downloadStatus := status
    localPath := if truthyStr localPath then localPath else m.localPath
    fileSize := if truthyNat fileSize then fileSize else m.fileSize }

/-- updateMediaStatus from media-repository.ts. -/
def updateMediaStatus (db : DbState) (id : Nat) (status : MediaDownloadStatus)
    (localPath : Option String) (fileSize : Option Nat) : DbState :=
  { db with media := db.media.map (fun m => if m.id == id then applyMediaUpdate m status localPath fileSize else m) }

/-- getAIResultByPostId from ai-result-repository.ts. -/
def getAIResultByPostId (db : DbState) (postId : String) : Option AIResult :=
  db.aiResults.find? (fun r => r.postId == postId)

/-- CreateAIResultInput as analyzePost builds it. -/
structure CreateAIResultInput where
  postId : String
  labels : List String
  summary : String
  groupId : Option Nat
  contentType : Option String
  modelVersion : String
  deriving DecidableEq

/-- createAIResult from ai-result-repository.ts. -/
def createAIResult (db : DbState) (input : CreateAIResultInput) : DbState × AIResult :=
  let r : AIResult :=
    { id := db.nextId, postId := input.postId, labels := input.labels,
      summary := input.summary, groupId := input.groupId,
      contentType := input.contentType, modelVersion := input.modelVersion }
  ({ db with aiResults := db.aiResults ++ [r], nextId := db.nextId + 1 }, r)

/-- getGroupByName from group-repository.ts. -/
def getGroupByName (db : DbState) (name : String) : Option Group :=
  db.groups.find? (fun g => g.name == name)

/-- createGroup from group-repository.ts: postCount starts at 0. -/
def createGroup (db : DbState) (name : String) : DbState × Group :=
  let g : Group := { id := db.nextId, name := name, postCount := 0 }
  ({ db with groups := db.groups ++ [g], nextId := db.nextId + 1 }, g)

/-- getOrCreateGroup from group-repository.ts. -/
def getOrCreateGroup (db : DbState) (name : String) : DbState × Group :=
  match getGroupByName db name with
  | some existing => (db, existing)
  | none => createGroup db name

/-- incrementGroupPostCount from group-repository.ts:
UPDATE groups SET post_count = post_count + 1 WHERE id = ?. -/
def incrementGroupPostCount (db : DbState) (id : Nat) : DbState :=
  { db with groups := db.groups.map (fun g => if g.id == id then { g with postCount := g.postCount + 1 } else g) }

/-! ## AI analysis service (src/mobile/src/services/ai-analysis.ts) -/

/-- analyzePost from ai-analysis.ts lines 30-101.  The call to the analyze
API is counted in analyzeCalls; the early return on an existing AIResult
makes no call.  The source's catch-all is unreachable here because every
embedded callee returns a value. -/
def analyzePost (env : Env) (postId : String) (s : RunState) :
    RunState × AnalysisServiceResult :=
  match getAIResultByPostId s.db postId with
  | some existing => (s, { success := true, aiResult := some existing, errorMessage := none })
  | none =>
    let post := getPostById s.db postId
    match getContentByPostId s.db postId with
    | none => (s, { success := false, aiResult := none,
                    errorMessage := some "No content available for analysis" })
    | some content =>
      let mediaCount := getMediaCountByPostId s.db postId
      let response := env.analyze (post.bind Post.title) content.text mediaCount
      let s := { s with analyzeCalls := s.analyzeCalls + 1 }
      match response.success, response.data with
      | true, some data =>
        let gpair : DbState × Option Nat :=
          match data.suggestedGroupName with
          | some name =>
            if name != "" then
              let gp := getOrCreateGroup s.db name
              (incrementGroupPostCount gp.1 gp.2.id, some gp.2.id)
            else (s.db, none)
          | none => (s.db, none)
        let created := createAIResult gpair.1
          { postId := postId, labels := data.labels, summary := data.summary,
            groupId := gpair.2, contentType := data.contentType,
            modelVersion := data.modelVersion }
        ({ s with db := created.1 },
         { success := true, aiResult := some created.2, errorMessage := none })
      | _, _ =>
        (s, { success := false, aiResult := none,
              errorMessage := some "Analysis API returned no data" })

/-! ## Download manager (src/mobile/src/services/download-manager.ts) -/

/-- notifyProgress from download-manager.ts lines 76-82, seen from the
publisher: the event is appended to the broadcast trace.  (The listener-side
fan-out is modelled separately below.) -/
def notifyProgress (s : RunState) (postId : String) (progress : ℚ)
    (status : PostDownloadStatus) : RunState :=
  { s with trace := s.trace ++ [{ postId := postId, progress := progress, status := status }] }

/-- saveContent from download-manager.ts lines 203-228: skip when content
already exists, otherwise createContent.  (The trailing title block of the
source mutates nothing.) -/
def saveContent (db : DbState) (postId : String) (content : CrawledContent) : DbState :=
  match getContentByPostId db postId with
  | some _ => db
  | none =>
    (createContent db
      { postId := postId, text := content.text, authorName := content.authorName,
        authorId := content.authorId, originalDate := content.originalDate,
        viewCount := content.viewCount, likeCount := content.likeCount }).1

/-- The per-item loop of downloadMedia (download-manager.ts lines 257-300),
running over the created media records with the source's completedCount and
hasFailures accumulators; `n` is mediaRecords.length. -/
def downloadMediaLoop (env : Env) (postId : String)
    (onProgress : ℚ → RunState → RunState) (n : Nat) :
    List Media → Nat → Bool → RunState → RunState × Bool
  | [], _, hasFailures, s => (s, hasFailures)
  | media :: rest, completedCount, hasFailures, s =>
    if media.type == .video && !isVideoWithinLimit env media.remoteUrl then
      let s := { s with db := updateMediaStatus s.db media.id .skipped none none }
      let completedCount := completedCount + 1
      let s := onProgress ((completedCount : ℚ) / (n : ℚ)) s
      downloadMediaLoop env postId onProgress n rest completedCount hasFailures s
    else
      let localPath := getMediaPath postId media.sortOrder media.type
      let s := { s with db := updateMediaStatus s.db media.id .downloading none none }
      let dl := downloadFile env media.remoteUrl localPath s
      let s := dl.1
      let result := dl.2
      let step : RunState × Bool :=
        if result.success && truthyStr result.localPath then
          ({ s with db := updateMediaStatus s.db media.id .completed result.localPath result.fileSize },
           hasFailures)
        else
          ({ s with db := updateMediaStatus s.db media.id .failed none none }, true)
      let completedCount := completedCount + 1
      let s := onProgress ((completedCount : ℚ) / (n : ℚ)) step.1
      downloadMediaLoop env postId onProgress n rest completedCount step.2 s

/-- The CreateMediaInput list downloadMedia builds:
mediaItems.map((item, index) => ({postId, type, remoteUrl: item.url,
sortOrder: index, fileSize})), with the running index made explicit. -/
def mediaInputsFrom (postId : String) (index : Nat) : List MediaItem → List CreateMediaInput
  | [] => []
  | item :: rest =>
    { postId := postId, type := item.type, remoteUrl := item.url,
      sortOrder := index, fileSize := item.fileSize } :: mediaInputsFrom postId (index + 1) rest

/-- downloadMedia from download-manager.ts lines 233-303: empty media is
fully satisfied (onProgress 1, success); otherwise create the records, run
the loop, and return !hasFailures. -/
def downloadMedia (env : Env) (postId : String) (mediaItems : List MediaItem)
    (onProgress : ℚ → RunState → RunState) (s : RunState) : RunState × Bool :=
  if mediaItems.isEmpty then
    (onProgress 1 s, true)
  else
    let batch := createMediaBatch s.db (mediaInputsFrom postId 0 mediaItems)
    let mediaRecords := batch.2
    let s := { s with db := batch.1 }
    let run := downloadMediaLoop env postId onProgress mediaRecords.length mediaRecords 0 false s
    (run.1, !run.2)

/-- downloadPost from download-manager.ts lines 140-198.  The outer try/catch
of the source is unreachable here because every embedded callee returns a
value (the crawler, the file manager and analyzePost all catch internally;
repository writes are total).  Failure of analyzePost is ignored, as in the
source's inner try/catch. -/
def downloadPost (env : Env) (postId : String) (s : RunState) : RunState × Bool :=
  match getPostById s.db postId with
  | none => (s, false)
  | some post =>
    let s := { s with db := updatePostStatus s.db postId .downloading }
    let s := notifyProgress s postId 0 .downloading
    let crawlResult := env.crawl post.url
    match crawlResult.success, crawlResult.content with
    | true, some content =>
      let s := notifyProgress s postId 0.3 .downloading
      let s := { s with db := saveContent s.db postId content }
      let s := notifyProgress s postId 0.4 .downloading
      let dm := downloadMedia env postId content.media
        (fun mediaProgress s => notifyProgress s postId (0.4 + mediaProgress * 0.45) .downloading) s
      let mediaSuccess := dm.2
      let s := notifyProgress dm.1 postId 0.85 .downloading
      let s := (analyzePost env postId s).1
      let finalStatus : PostDownloadStatus :=
        if mediaSuccess then .completed else .partialStatus
      let s := { s with db := updatePostStatus s.db postId finalStatus }
      let s := notifyProgress s postId 1 finalStatus
      (s, true)
    | _, _ =>
      let s := { s with db := updatePostStatus s.db postId .failed }
      let s := notifyProgress s postId 0 .failed
      (s, false)

/-- retryDownload from download-manager.ts lines 308-310: a retry is a fresh
full run. -/
def retryDownload (env : Env) (postId : String) (s : RunState) : RunState × Bool :=
  downloadPost env postId s

/-- The record getDownloadStatus returns. -/
structure DownloadStatusInfo where
  status : PostDownloadStatus
  mediaTotal : Nat
  mediaCompleted : Nat
  mediaFailed : Nat
  deriving DecidableEq

/-- getDownloadStatus from download-manager.ts lines 315-332. -/
def getDownloadStatus (db : DbState) (postId : String) : Option DownloadStatusInfo :=
  match getPostById db postId with
  | none => none
  | some post =>
    let media := getMediaByPostId db postId
    some { status := post.downloadStatus,
           mediaTotal := media.length,
           mediaCompleted := (media.filter (fun m => m.downloadStatus == .completed)).length,
           mediaFailed := (media.filter (fun m => m.downloadStatus == .failed)).length }

/-! ## Download queue (download-manager.ts lines 40-135) -/

/-- One entry of the module-level downloadQueue. -/
structure DownloadQueueItem where
  postId : String
  priority : Int
  addedAt : Nat
  deriving DecidableEq

/-- The non-strict order induced by the source's sort comparator
`(a, b) => a.priority !== b.priority ? b.priority - a.priority : a.addedAt - b.addedAt`:
a before b iff a has higher priority, or equal priority and an earlier (or
equal) enqueue time. -/
def queueLE (a b : DownloadQueueItem) : Prop :=
  b.priority < a.priority ∨ (a.priority = b.priority ∧ a.addedAt ≤ b.addedAt)

instance : DecidableRel queueLE := fun a b => by
  unfold queueLE; infer_instance

instance : IsTotal DownloadQueueItem queueLE where
  total a b := by
    unfold queueLE
    rcases lt_trichotomy a.priority b.priority with h | h | h
    · exact Or.inr (Or.inl h)
    · rcases Nat.le_total a.addedAt b.addedAt with h' | h'
      · exact Or.inl (Or.inr ⟨h, h'⟩)
      · exact Or.inr (Or.inr ⟨h.symm, h'⟩)
    · exact Or.inl (Or.inl h)

instance : IsTrans DownloadQueueItem queueLE where
  trans a b c hab hbc := by
    unfold queueLE at *
    rcases hab with h1 | ⟨h1, h1'⟩ <;> rcases hbc with h2 | ⟨h2, h2'⟩
    · exact Or.inl (h2.trans h1)
    · exact Or.inl (h2 ▸ h1)
    · exact Or.inl (h1 ▸ h2)
    · exact Or.inr ⟨h1.trans h2, h1'.trans h2'⟩

/-- queueDownload from download-manager.ts lines 94-113: a no-op when the
post id is already queued; otherwise push and re-sort the whole queue by the
comparator.  (JavaScript Array.prototype.sort is stable; any correct sort
realizes the same ordering guarantees proved here, which never depend on the
relative order of items equal in both priority and addedAt.) -/
def queueDownload (queue : List DownloadQueueItem) (postId : String)
    (priority : Int) (now : Nat) : List DownloadQueueItem :=
  if queue.any (fun item => item.postId == postId) then queue
  else List.insertionSort queueLE (queue ++ [{ postId := postId, priority := priority, addedAt := now }])

/-- A sequence of queueDownload calls applied to a queue, oldest first. -/
def enqueueAll (queue : List DownloadQueueItem) : List (String × Int × Nat) → List DownloadQueueItem
  | [] => queue
  | (postId, priority, now) :: rest => enqueueAll (queueDownload queue postId priority now) rest

/-! ## Progress fan-out (download-manager.ts lines 76-82)

`progressListeners.forEach((listener) => listener(postId, progress, status))`
iterates the subscribed listeners in order with no exception handling.  For
one published notification a listener either returns or throws; the fan-out
of that notification is a function of those behaviours. -/

/-- One subscribed listener's behaviour for a given notification. -/
structure ListenerSpec where
  id : Nat
  throws : Bool
  deriving DecidableEq

/-- The listener side of notifyProgress: invoke each listener in iteration
order; a throw aborts forEach and propagates.  Returns the ids of the
listeners that were invoked and whether an exception reached the publisher. -/
def notifyProgressFanout : List ListenerSpec → List Nat × Bool
  | [] => ([], false)
  | l :: rest =>
    if l.throws then ([l.id], true)
    else
      let tail := notifyProgressFanout rest
      (l.id :: tail.1, tail.2)

/-! ## Derived notions used to state the properties -/

/-- Whether the per-item loop skips this record: the source's video size
pre-check (download-manager.ts lines 260-267). -/
def recordSkips (env : Env) (m : Media) : Bool :=
  m.type == .video && !isVideoWithinLimit env m.remoteUrl

/-- The final value of one media record after its loop iteration: skipped on
the video pre-check, otherwise 'downloading' then 'completed' or 'failed'
according to the transfer result, composing the very updateMediaStatus
writes of the loop. -/
def processRecord (env : Env) (postId : String) (m : Media) : Media :=
  if recordSkips env m then
    applyMediaUpdate m .skipped none none
  else
    let localPath := getMediaPath postId m.sortOrder m.type
    let result := env.download m.remoteUrl localPath
    let afterDl := applyMediaUpdate m .downloading none none
    if result.success && truthyStr result.localPath then
      applyMediaUpdate afterDl .completed result.localPath result.fileSize
    else
      applyMediaUpdate afterDl .failed none none

/-- The transfer (url, localPath) the loop starts for this record, none when
the record is skipped by the video pre-check. -/
def attemptedTransfer (env : Env) (postId : String) (m : Media) : Option (String × String) :=
  if recordSkips env m then none
  else some (m.remoteUrl, getMediaPath postId m.sortOrder m.type)

/-- The media records createMediaBatch builds from `inputs` when the
database counter stands at `startId`. -/
def freshMedia (startId : Nat) : List CreateMediaInput → List Media
  | [] => []
  | input :: rest =>
    { id := startId, postId := input.postId, type := input.type,
      remoteUrl := input.remoteUrl, localPath := none, fileSize := input.fileSize,
      downloadStatus := .pending, sortOrder := input.sortOrder } :: freshMedia (startId + 1) rest

/-- The fractions completedCount / n the loop reports over `k` iterations
when `cc` items were already completed. -/
def progressFracs (n : Nat) : Nat → Nat → List ℚ
  | _, 0 => []
  | cc, k + 1 => (((cc : ℚ) + 1) / (n : ℚ)) :: progressFracs n (cc + 1) k

/-- The terminal post statuses: completed, partial and failed. -/
def terminalStatus : PostDownloadStatus → Bool
  | .completed => true
  | .partialStatus => true
  | .failed => true
  | _ => false

/-- The media records of this post created during a run that started with
the id counter at `startId`: exactly the records whose id is at least
`startId` (created rows always take fresh ids at or above the counter). -/
def newMediaSince (db : DbState) (startId : Nat) : List Media :=
  db.media.filter (fun m => startId ≤ m.id)

/-- The progress events a run appended after `old`. -/
def newEvents (s : RunState) (old : List ProgressEvent) : List ProgressEvent :=
  s.trace.drop old.length

/-- Sum of all groups' cached post counts. -/
def groupSum (db : DbState) : Nat :=
  (db.groups.map Group.postCount).sum

/-- Whether an AIResult row exists for the post. -/
def hasAIResult (db : DbState) (postId : String) : Bool :=
  (getAIResultByPostId db postId).isSome

/-- Well-formedness of the id counter: every existing row id is below
nextId, and group ids are distinct.  Every database reachable from an empty
one satisfies this. -/
def WFdb (db : DbState) : Prop :=
  (∀ m ∈ db.media, m.id < db.nextId) ∧
  (∀ g ∈ db.groups, g.id < db.nextId) ∧
  (db.groups.map Group.id).Nodup

/-- A sequence of full pipeline runs on one post, each with its own
environment (oldest first). -/
def runAll (postId : String) : List Env → RunState → RunState
  | [], s => s
  | env :: rest, s => runAll postId rest (downloadPost env postId s).1

/-- The database after the status write and the persist-content stage of a
successful crawl. -/
def dbAfterContent (s : RunState) (postId : String) (c : CrawledContent) : DbState :=
  saveContent (updatePostStatus s.db postId .downloading) postId c

/-- The media records a successful run creates for the crawled items. -/
def createdMedia (s : RunState) (postId : String) (c : CrawledContent) : List Media :=
  freshMedia (dbAfterContent s postId c).nextId (mediaInputsFrom postId 0 c.media)

/-- downloadMedia's return value on a successful run: no created record
ends failed. -/
def runMediaOk (env : Env) (s : RunState) (postId : String) (c : CrawledContent) : Bool :=
  !(createdMedia s postId c).any
    (fun r => (processRecord env postId r).downloadStatus == .failed)

/-- The final post status a successful run writes. -/
def runFinalStatus (env : Env) (s : RunState) (postId : String) (c : CrawledContent) :
    PostDownloadStatus :=
  if runMediaOk env s postId c then .completed else .partialStatus

/-- The events the media stage broadcasts: one per item, or the single full
report when there are no items. -/
def mediaProgressEvents (postId : String) (k : Nat) : List ProgressEvent :=
  if k = 0 then [{ postId := postId, progress := 0.4 + 1 * 0.45, status := .downloading }]
  else (progressFracs k 0 k).map
    (fun q => { postId := postId, progress := 0.4 + q * 0.45, status := .downloading })

/-- All events one successful run broadcasts. -/
def runEvents (env : Env) (s : RunState) (postId : String) (c : CrawledContent) :
    List ProgressEvent :=
  [{ postId := postId, progress := 0, status := .downloading },
   { postId := postId, progress := 0.3, status := .downloading },
   { postId := postId, progress := 0.4, status := .downloading }] ++
  mediaProgressEvents postId c.media.length ++
  [{ postId := postId, progress := 0.85, status := .downloading },
   { postId := postId, progress := 1, status := runFinalStatus env s postId c }]

/-- Number of Content rows stored for a post. -/
def contentCountFor (db : DbState) (postId : String) : Nat :=
  (db.contents.filter (fun c => c.postId == postId)).length

/-- The run state right before the media stage of a successful run. -/
def stateAfterContent (s : RunState) (postId : String) (c : CrawledContent) : RunState :=
  { db := dbAfterContent s postId c,
    trace := s.trace ++
      [{ postId := postId, progress := 0, status := .downloading },
       { postId := postId, progress := 0.3, status := .downloading },
       { postId := postId, progress := 0.4, status := .downloading }],
    downloads := s.downloads,
    analyzeCalls := s.analyzeCalls }

/-! ## Concrete fixtures used by the witnesses and counterexamples -/

/-- A freshly shared post. -/
def wPost : Post := { id := "p1", url := "u1", title := none, downloadStatus := .pending }

/-- A database holding just that post. -/
def wDb : DbState :=
  { posts := [wPost], contents := [], media := [], aiResults := [], groups := [],
    tasks := [], nextId := 0 }

/-- A quiet initial run state. -/
def wState : RunState := { db := wDb, trace := [], downloads := [], analyzeCalls := 0 }

/-- An environment whose crawl always fails. -/
def wEnvFail : Env :=
  { crawl := fun _ => { success := false, content := none, errorMessage := some "timeout" },
    contentLength := fun _ => none,
    download := fun _ _ =>
      { success := false, localPath := none, fileSize := none, errorMessage := none },
    analyze := fun _ _ _ => { success := false, data := none } }

/-- Crawled content with one image that downloads fine. -/
def wContentOneImage : CrawledContent :=
  { title := "t", text := "body", authorName := none, authorId := none,
    originalDate := none, viewCount := none, likeCount := none,
    media := [{ type := .image, url := "i1", fileSize := none }] }

/-- An environment whose crawl succeeds with one image and whose downloads
succeed. -/
def wEnvOk : Env :=
  { crawl := fun _ => { success := true, content := some wContentOneImage, errorMessage := none },
    contentLength := fun _ => none,
    download := fun _ _ =>
      { success := true, localPath := some "file:///m.jpg", fileSize := some 5, errorMessage := none },
    analyze := fun _ _ _ => { success := false, data := none } }

/-- Crawled content with one video whose size is unknown to the HEAD probe. -/
def wContentOneVideo : CrawledContent :=
  { title := "t", text := "body", authorName := none, authorId := none,
    originalDate := none, viewCount := none, likeCount := none,
    media := [{ type := .video, url := "v1", fileSize := none }] }

/-- An environment where the HEAD probe of the video fails (size unknown) but
the transfer succeeds and measures 150 MB — above the 100 MB ceiling. -/
def wEnvBigVideoUnknownProbe : Env :=
  { crawl := fun _ => { success := true, content := some wContentOneVideo, errorMessage := none },
    contentLength := fun _ => none,
    download := fun _ _ =>
      { success := true, localPath := some "file:///m.mp4", fileSize := some 157286400,
        errorMessage := none },
    analyze := fun _ _ _ => { success := false, data := none } }

/-- An environment where the HEAD probe reports the video at 150 MB. -/
def wEnvBigVideoKnownProbe : Env :=
  { crawl := fun _ => { success := true, content := some wContentOneVideo, errorMessage := none },
    contentLength := fun _ => some 157286400,
    download := fun _ _ =>
      { success := true, localPath := some "file:///m.mp4", fileSize := some 157286400,
        errorMessage := none },
    analyze := fun _ _ _ => { success := false, data := none } }

/-- A database where post p1 already completed one image download: the post
is completed, its content row exists, and its media record is completed. -/
def wDbRetry : DbState :=
  { posts := [{ id := "p1", url := "u1", title := none, downloadStatus := .completed }],
    contents := [{ id := 0, postId := "p1", text := "body", authorName := none,
                   authorId := none, originalDate := none, viewCount := none,
                   likeCount := none }],
    media := [{ id := 1, postId := "p1", type := .image, remoteUrl := "i1",
                localPath := some "file:///m.jpg", fileSize := some 5,
                downloadStatus := .completed, sortOrder := 0 }],
    aiResults := [], groups := [], tasks := [], nextId := 2 }

/-- The run state for the retry scenario. -/
def wStateRetry : RunState := { db := wDbRetry, trace := [], downloads := [], analyzeCalls := 0 }

/-! ## Basic lemmas -/

theorem map_eq_self_of {α : Type} {l : List α} {f : α → α} (h : ∀ x ∈ l, f x = x) :
    l.map f = l := by
  induction l with
  | nil => rfl
  | cons a t ih =>
    simp only [List.map_cons, h a (List.mem_cons_self a t),
      ih (fun x hx => h x (List.mem_cons_of_mem a hx))]

theorem applyMediaUpdate_id (m : Media) (st : MediaDownloadStatus)
    (lp : Option String) (fs : Option Nat) : (applyMediaUpdate m st lp fs).id = m.id := rfl

theorem applyMediaUpdate_postId (m : Media) (st : MediaDownloadStatus)
    (lp : Option String) (fs : Option Nat) : (applyMediaUpdate m st lp fs).postId = m.postId := rfl

theorem applyMediaUpdate_type (m : Media) (st : MediaDownloadStatus)
    (lp : Option String) (fs : Option Nat) : (applyMediaUpdate m st lp fs).type = m.type := rfl

theorem applyMediaUpdate_remoteUrl (m : Media) (st : MediaDownloadStatus)
    (lp : Option String) (fs : Option Nat) : (applyMediaUpdate m st lp fs).remoteUrl = m.remoteUrl := rfl

theorem applyMediaUpdate_sortOrder (m : Media) (st : MediaDownloadStatus)
    (lp : Option String) (fs : Option Nat) : (applyMediaUpdate m st lp fs).sortOrder = m.sortOrder := rfl

theorem applyMediaUpdate_status (m : Media) (st : MediaDownloadStatus)
    (lp : Option String) (fs : Option Nat) : (applyMediaUpdate m st lp fs).downloadStatus = st := rfl

theorem processRecord_id (env : Env) (postId : String) (m : Media) :
    (processRecord env postId m).id = m.id := by
  unfold processRecord
  split
  · rfl
  · dsimp only
    split <;> rfl

theorem processRecord_postId (env : Env) (postId : String) (m : Media) :
    (processRecord env postId m).postId = m.postId := by
  unfold processRecord
  split
  · rfl
  · dsimp only
    split <;> rfl

theorem processRecord_type (env : Env) (postId : String) (m : Media) :
    (processRecord env postId m).type = m.type := by
  unfold processRecord
  split
  · rfl
  · dsimp only
    split <;> rfl

theorem processRecord_remoteUrl (env : Env) (postId : String) (m : Media) :
    (processRecord env postId m).remoteUrl = m.remoteUrl := by
  unfold processRecord
  split
  · rfl
  · dsimp only
    split <;> rfl

theorem processRecord_sortOrder (env : Env) (postId : String) (m : Media) :
    (processRecord env postId m).sortOrder = m.sortOrder := by
  unfold processRecord
  split
  · rfl
  · dsimp only
    split <;> rfl

theorem processRecord_status_of_skips (env : Env) (postId : String) (m : Media)
    (h : recordSkips env m = true) :
    (processRecord env postId m).downloadStatus = .skipped := by
  unfold processRecord
  rw [if_pos h]
  rfl

theorem processRecord_status_cases (env : Env) (postId : String) (m : Media) :
    (processRecord env postId m).downloadStatus = .skipped ∨
    (processRecord env postId m).downloadStatus = .completed ∨
    (processRecord env postId m).downloadStatus = .failed := by
  unfold processRecord
  split
  · exact Or.inl rfl
  · dsimp only
    split
    · exact Or.inr (Or.inl rfl)
    · exact Or.inr (Or.inr rfl)

theorem processRecord_not_skips_ne_skipped (env : Env) (postId : String) (m : Media)
    (h : recordSkips env m = false) :
    (processRecord env postId m).downloadStatus ≠ .skipped := by
  unfold processRecord
  rw [if_neg (by simp [h])]
  dsimp only
  split <;> simp [applyMediaUpdate_status]

theorem updateMediaStatus_split (db : DbState) (pre rest : List Media) (m : Media)
    (st : MediaDownloadStatus) (lp : Option String) (fs : Option Nat)
    (hmedia : db.media = pre ++ m :: rest)
    (hpre : ∀ x ∈ pre, x.id ≠ m.id) (hrest : ∀ x ∈ rest, x.id ≠ m.id) :
    updateMediaStatus db m.id st lp fs =
      { db with media := pre ++ applyMediaUpdate m st lp fs :: rest } := by
  have key : db.media.map (fun x => if x.id == m.id then applyMediaUpdate x st lp fs else x)
      = pre ++ applyMediaUpdate m st lp fs :: rest := by
    rw [hmedia, List.map_append, List.map_cons]
    have h1 : pre.map (fun x => if x.id == m.id then applyMediaUpdate x st lp fs else x) = pre :=
      map_eq_self_of (fun x hx => by simp [hpre x hx])
    have h2 : rest.map (fun x => if x.id == m.id then applyMediaUpdate x st lp fs else x) = rest :=
      map_eq_self_of (fun x hx => by simp [hrest x hx])
    rw [h1, h2, if_pos (by simp)]
  unfold updateMediaStatus
  rw [key]

theorem freshMedia_length (startId : Nat) (inputs : List CreateMediaInput) :
    (freshMedia startId inputs).length = inputs.length := by
  induction inputs generalizing startId with
  | nil => rfl
  | cons i rest ih => simp [freshMedia, ih]

theorem freshMedia_id_bounds (startId : Nat) (inputs : List CreateMediaInput) :
    ∀ m ∈ freshMedia startId inputs, startId ≤ m.id ∧ m.id < startId + inputs.length := by
  induction inputs generalizing startId with
  | nil => intro m hm; cases hm
  | cons i rest ih =>
    intro m hm
    rcases List.mem_cons.mp hm with h | h
    · subst h; simp
    · have := ih (startId + 1) m h
      simp only [List.length_cons]
      omega

theorem freshMedia_postId (postId : String) (startId index : Nat) (items : List MediaItem) :
    ∀ m ∈ freshMedia startId (mediaInputsFrom postId index items), m.postId = postId := by
  induction items generalizing startId index with
  | nil => intro m hm; cases hm
  | cons i rest ih =>
    intro m hm
    rcases List.mem_cons.mp hm with h | h
    · subst h; rfl
    · exact ih (startId + 1) (index + 1) m h

theorem freshMedia_id_nodup (startId : Nat) (inputs : List CreateMediaInput) :
    (freshMedia startId inputs).Pairwise (fun a b => a.id ≠ b.id) := by
  induction inputs generalizing startId with
  | nil => exact List.Pairwise.nil
  | cons i rest ih =>
    refine List.Pairwise.cons ?_ (ih (startId + 1))
    intro b hb
    have hbd := freshMedia_id_bounds (startId + 1) rest b hb
    show startId ≠ b.id
    omega

theorem createMediaBatch_spec (db : DbState) (inputs : List CreateMediaInput) :
    createMediaBatch db inputs =
      ({ db with media := db.media ++ freshMedia db.nextId inputs,
                 nextId := db.nextId + inputs.length },
       freshMedia db.nextId inputs) := by
  induction inputs generalizing db with
  | nil => simp [createMediaBatch, freshMedia]
  | cons i rest ih =>
    simp only [createMediaBatch, createMedia, freshMedia]
    rw [ih]
    simp only [Prod.mk.injEq, DbState.mk.injEq, List.append_assoc, List.singleton_append,
      List.length_cons, true_and, and_true]
    omega

theorem mediaInputsFrom_length (postId : String) (index : Nat) (items : List MediaItem) :
    (mediaInputsFrom postId index items).length = items.length := by
  induction items generalizing index with
  | nil => rfl
  | cons i rest ih => simp [mediaInputsFrom, ih]

theorem processRecord_of_skips (env : Env) (postId : String) (m : Media)
    (h : recordSkips env m = true) :
    processRecord env postId m = applyMediaUpdate m .skipped none none := by
  unfold processRecord
  rw [if_pos h]

theorem attemptedTransfer_of_skips (env : Env) (postId : String) (m : Media)
    (h : recordSkips env m = true) :
    attemptedTransfer env postId m = none := by
  unfold attemptedTransfer
  rw [if_pos h]

theorem attemptedTransfer_of_not_skips (env : Env) (postId : String) (m : Media)
    (h : recordSkips env m = false) :
    attemptedTransfer env postId m = some (m.remoteUrl, getMediaPath postId m.sortOrder m.type) := by
  unfold attemptedTransfer
  rw [if_neg (by simp [h])]

/-- processRecord when the transfer succeeds. -/
theorem processRecord_of_transfer_ok (env : Env) (postId : String) (m : Media)
    (h : recordSkips env m = false)
    (hok : ((env.download m.remoteUrl (getMediaPath postId m.sortOrder m.type)).success
        && truthyStr (env.download m.remoteUrl (getMediaPath postId m.sortOrder m.type)).localPath) = true) :
    processRecord env postId m =
      applyMediaUpdate (applyMediaUpdate m .downloading none none) .completed
        (env.download m.remoteUrl (getMediaPath postId m.sortOrder m.type)).localPath
        (env.download m.remoteUrl (getMediaPath postId m.sortOrder m.type)).fileSize := by
  unfold processRecord
  rw [if_neg (by simp [h])]
  rw [if_pos hok]

/-- processRecord when the transfer fails. -/
theorem processRecord_of_transfer_failed (env : Env) (postId : String) (m : Media)
    (h : recordSkips env m = false)
    (hok : ((env.download m.remoteUrl (getMediaPath postId m.sortOrder m.type)).success
        && truthyStr (env.download m.remoteUrl (getMediaPath postId m.sortOrder m.type)).localPath) = false) :
    processRecord env postId m =
      applyMediaUpdate (applyMediaUpdate m .downloading none none) .failed none none := by
  unfold processRecord
  rw [if_neg (by simp [h])]
  rw [if_neg (by simp [hok])]

/-- One-step unfolding of the loop for a record that passes the video
pre-check and downloads successfully. -/
theorem downloadMediaLoop_cons_ok (env : Env) (postId : String)
    (onP : ℚ → RunState → RunState) (n : Nat) (m : Media) (rest : List Media)
    (cc : Nat) (hf : Bool) (s : RunState)
    (hsk : (m.type == MediaType.video && !isVideoWithinLimit env m.remoteUrl) = false)
    (hok : ((env.download m.remoteUrl (getMediaPath postId m.sortOrder m.type)).success
        && truthyStr (env.download m.remoteUrl (getMediaPath postId m.sortOrder m.type)).localPath) = true) :
    downloadMediaLoop env postId onP n (m :: rest) cc hf s =
      downloadMediaLoop env postId onP n rest (cc + 1) hf
        (onP (((cc + 1 : Nat) : ℚ) / (n : ℚ))
          { s with
            db := updateMediaStatus (updateMediaStatus s.db m.id .downloading none none) m.id
              .completed
              (env.download m.remoteUrl (getMediaPath postId m.sortOrder m.type)).localPath
              (env.download m.remoteUrl (getMediaPath postId m.sortOrder m.type)).fileSize,
            downloads := s.downloads ++ [(m.remoteUrl, getMediaPath postId m.sortOrder m.type)] }) := by
  simp only [downloadMediaLoop, downloadFile]
  rw [if_neg (by simp [hsk])]
  rw [if_pos hok]

/-- One-step unfolding of the loop for a record that passes the video
pre-check and whose download fails. -/
theorem downloadMediaLoop_cons_failed (env : Env) (postId : String)
    (onP : ℚ → RunState → RunState) (n : Nat) (m : Media) (rest : List Media)
    (cc : Nat) (hf : Bool) (s : RunState)
    (hsk : (m.type == MediaType.video && !isVideoWithinLimit env m.remoteUrl) = false)
    (hok : ((env.download m.remoteUrl (getMediaPath postId m.sortOrder m.type)).success
        && truthyStr (env.download m.remoteUrl (getMediaPath postId m.sortOrder m.type)).localPath) = false) :
    downloadMediaLoop env postId onP n (m :: rest) cc hf s =
      downloadMediaLoop env postId onP n rest (cc + 1) true
        (onP (((cc + 1 : Nat) : ℚ) / (n : ℚ))
          { s with
            db := updateMediaStatus (updateMediaStatus s.db m.id .downloading none none) m.id
              .failed none none,
            downloads := s.downloads ++ [(m.remoteUrl, getMediaPath postId m.sortOrder m.type)] }) := by
  simp only [downloadMediaLoop, downloadFile]
  rw [if_neg (by simp [hsk])]
  rw [if_neg (by simp [hok])]

/-- The workhorse: one closed form for the per-item loop.  Under a callback
that only appends one trace event per report, the loop rewrites exactly the
processed records (their ids being distinct and absent from the prefix),
emits one fraction per record, logs one transfer per non-skipped record, and
accumulates the failure flag. -/
theorem downloadMediaLoop_spec (env : Env) (postId : String)
    (onP : ℚ → RunState → RunState) (ev : ℚ → ProgressEvent)
    (hOnP : ∀ q s, onP q s = { s with trace := s.trace ++ [ev q] }) (n : Nat) :
    ∀ (rs : List Media) (cc : Nat) (hf : Bool) (s : RunState) (pre : List Media),
      s.db.media = pre ++ rs →
      (∀ r ∈ rs, ∀ x ∈ pre, x.id ≠ r.id) →
      rs.Pairwise (fun a b => a.id ≠ b.id) →
      downloadMediaLoop env postId onP n rs cc hf s =
        ({ db := { s.db with media := pre ++ rs.map (processRecord env postId) },
           trace := s.trace ++ (progressFracs n cc rs.length).map ev,
           downloads := s.downloads ++ rs.filterMap (attemptedTransfer env postId),
           analyzeCalls := s.analyzeCalls },
         hf || rs.any (fun r => (processRecord env postId r).downloadStatus == .failed)) := by
  intro rs
  induction rs with
  | nil =>
    intro cc hf s pre hmedia _ _
    rw [List.append_nil] at hmedia
    subst hmedia
    simp [downloadMediaLoop, progressFracs]
  | cons m rest ih =>
    intro cc hf s pre hmedia hids hpw
    have hpre_m : ∀ x ∈ pre, x.id ≠ m.id :=
      fun x hx => hids m (List.mem_cons_self m rest) x hx
    have hrest_m : ∀ x ∈ rest, x.id ≠ m.id := by
      intro x hx
      exact fun hEq => (List.pairwise_cons.mp hpw).1 x hx hEq.symm
    have hids' : ∀ r ∈ rest, ∀ x ∈ pre, x.id ≠ r.id :=
      fun r hr x hx => hids r (List.mem_cons_of_mem m hr) x hx
    have hpw' : rest.Pairwise (fun a b => a.id ≠ b.id) := (List.pairwise_cons.mp hpw).2
    have hbeqsf : (MediaDownloadStatus.skipped == MediaDownloadStatus.failed) = false := rfl
    have hbeqcf : (MediaDownloadStatus.completed == MediaDownloadStatus.failed) = false := rfl
    have hbeqff : (MediaDownloadStatus.failed == MediaDownloadStatus.failed) = true := rfl
    by_cases hsk : (m.type == MediaType.video && !isVideoWithinLimit env m.remoteUrl) = true
    · -- skipped by the video size pre-check
      have hskips : recordSkips env m = true := hsk
      simp only [downloadMediaLoop]
      rw [if_pos hsk]
      have hupd := updateMediaStatus_split s.db pre rest m .skipped none none hmedia hpre_m hrest_m
      set m' := applyMediaUpdate m .skipped none none with hm'
      have hstep := ih (cc + 1) hf
        (onP (((cc + 1 : Nat) : ℚ) / (n : ℚ)) { s with db := updateMediaStatus s.db m.id .skipped none none })
        (pre ++ [m'])
        (by rw [hOnP]; simp only [hupd]; simp)
        (by
          intro r hr x hx
          rcases List.mem_append.mp hx with h | h
          · exact hids' r hr x h
          · have hx' : x = m' := by simpa using h
            subst hx'
            rw [hm', applyMediaUpdate_id]
            exact fun hEq => (List.pairwise_cons.mp hpw).1 r hr hEq)
        hpw'
      rw [hstep, hOnP]
      simp only [hupd]
      refine Prod.ext ?_ ?_
      · simp only [RunState.mk.injEq]
        refine ⟨?_, ?_, ?_, trivial⟩
        · simp [processRecord_of_skips env postId m hskips, hm']
        · simp [progressFracs, List.append_assoc, Nat.cast_succ]
        · simp [attemptedTransfer_of_skips env postId m hskips]
      · simp [processRecord_of_skips env postId m hskips, applyMediaUpdate_status, hbeqsf]
    · -- transfer attempted
      have hskipf : recordSkips env m = false := by
        have h' : recordSkips env m ≠ true := hsk
        simpa using h'
      have hupd1 := updateMediaStatus_split s.db pre rest m .downloading none none hmedia hpre_m hrest_m
      set m1 := applyMediaUpdate m .downloading none none with hm1
      have hm1id : m1.id = m.id := rfl
      set db1 : DbState := { s.db with media := pre ++ m1 :: rest } with hdb1
      have hpre1 : ∀ x ∈ pre, x.id ≠ m.id := hpre_m
      have hrest1 : ∀ x ∈ rest, x.id ≠ m.id := hrest_m
      by_cases hok : ((env.download m.remoteUrl (getMediaPath postId m.sortOrder m.type)).success
          && truthyStr (env.download m.remoteUrl (getMediaPath postId m.sortOrder m.type)).localPath) = true
      · -- download succeeded
        rw [downloadMediaLoop_cons_ok env postId onP n m rest cc hf s hskipf hok]
        have hupd2 : updateMediaStatus db1 m.id .completed
            (env.download m.remoteUrl (getMediaPath postId m.sortOrder m.type)).localPath
            (env.download m.remoteUrl (getMediaPath postId m.sortOrder m.type)).fileSize =
            { db1 with media := pre ++ (applyMediaUpdate m1 .completed
              (env.download m.remoteUrl (getMediaPath postId m.sortOrder m.type)).localPath
              (env.download m.remoteUrl (getMediaPath postId m.sortOrder m.type)).fileSize) :: rest } :=
          updateMediaStatus_split db1 pre rest m1 .completed _ _ rfl hpre1 hrest1
        set m2 := applyMediaUpdate m1 .completed
          (env.download m.remoteUrl (getMediaPath postId m.sortOrder m.type)).localPath
          (env.download m.remoteUrl (getMediaPath postId m.sortOrder m.type)).fileSize with hm2
        have hproc : processRecord env postId m = m2 := by
          rw [hm2, hm1]
          exact processRecord_of_transfer_ok env postId m hskipf hok
        have hstep := ih (cc + 1) hf
          (onP (((cc + 1 : Nat) : ℚ) / (n : ℚ))
            { s with
              db := updateMediaStatus (updateMediaStatus s.db m.id .downloading none none) m.id .completed (env.download m.remoteUrl (getMediaPath postId m.sortOrder m.type)).localPath (env.download m.remoteUrl (getMediaPath postId m.sortOrder m.type)).fileSize,
              downloads := s.downloads ++ [(m.remoteUrl, getMediaPath postId m.sortOrder m.type)] })
          (pre ++ [m2])
          (by
            rw [hOnP]
            simp only [hupd1, ← hdb1, hupd2]
            simp)
          (by
            intro r hr x hx
            rcases List.mem_append.mp hx with h | h
            · exact hids' r hr x h
            · have hx' : x = m2 := by simpa using h
              subst hx'
              show m2.id ≠ r.id
              rw [hm2, applyMediaUpdate_id, hm1id]
              exact fun hEq => (List.pairwise_cons.mp hpw).1 r hr hEq)
          hpw'
        rw [hstep, hOnP]
        simp only [hupd1, ← hdb1, hupd2]
        refine Prod.ext ?_ ?_
        · simp only [RunState.mk.injEq]
          refine ⟨?_, ?_, ?_, trivial⟩
          · simp [hproc, hdb1]
          · simp [progressFracs, List.append_assoc, Nat.cast_succ]
          · simp [attemptedTransfer_of_not_skips env postId m hskipf]
        · simp [hproc, hm2, applyMediaUpdate_status, hbeqcf]
      · -- download failed
        have hokf : ((env.download m.remoteUrl (getMediaPath postId m.sortOrder m.type)).success
            && truthyStr (env.download m.remoteUrl (getMediaPath postId m.sortOrder m.type)).localPath) = false := by
          simpa using hok
        rw [downloadMediaLoop_cons_failed env postId onP n m rest cc hf s hskipf hokf]
        have hupd2 : updateMediaStatus db1 m.id .failed none none =
            { db1 with media := pre ++ (applyMediaUpdate m1 .failed none none) :: rest } :=
          updateMediaStatus_split db1 pre rest m1 .failed none none rfl hpre1 hrest1
        set m2 := applyMediaUpdate m1 .failed none none with hm2
        have hproc : processRecord env postId m = m2 := by
          rw [hm2, hm1]
          exact processRecord_of_transfer_failed env postId m hskipf hokf
        have hstep := ih (cc + 1) true
          (onP (((cc + 1 : Nat) : ℚ) / (n : ℚ))
            { s with
              db := updateMediaStatus (updateMediaStatus s.db m.id .downloading none none) m.id .failed none none,
              downloads := s.downloads ++ [(m.remoteUrl, getMediaPath postId m.sortOrder m.type)] })
          (pre ++ [m2])
          (by
            rw [hOnP]
            simp only [hupd1, ← hdb1, hupd2]
            simp)
          (by
            intro r hr x hx
            rcases List.mem_append.mp hx with h | h
            · exact hids' r hr x h
            · have hx' : x = m2 := by simpa using h
              subst hx'
              show m2.id ≠ r.id
              rw [hm2, applyMediaUpdate_id, hm1id]
              exact fun hEq => (List.pairwise_cons.mp hpw).1 r hr hEq)
          hpw'
        rw [hstep, hOnP]
        simp only [hupd1, ← hdb1, hupd2]
        refine Prod.ext ?_ ?_
        · simp only [RunState.mk.injEq]
          refine ⟨?_, ?_, ?_, trivial⟩
          · simp [hproc, hdb1]
          · simp [progressFracs, List.append_assoc, Nat.cast_succ]
          · simp [attemptedTransfer_of_not_skips env postId m hskipf]
        · simp [hproc, hm2, applyMediaUpdate_status, hbeqff]

theorem map_congr_fn {α β : Type} {l : List α} {f g : α → β} (h : ∀ x ∈ l, f x = g x) :
    l.map f = l.map g := by
  induction l with
  | nil => rfl
  | cons a t ih =>
    simp only [List.map_cons, h a (List.mem_cons_self a t),
      ih (fun x hx => h x (List.mem_cons_of_mem a hx))]

/-- downloadMedia with no media items: report full progress, succeed. -/
theorem downloadMedia_spec_empty (env : Env) (postId : String)
    (onP : ℚ → RunState → RunState) (ev : ℚ → ProgressEvent)
    (hOnP : ∀ q s, onP q s = { s with trace := s.trace ++ [ev q] })
    (s : RunState) :
    downloadMedia env postId [] onP s = ({ s with trace := s.trace ++ [ev 1] }, true) := by
  simp [downloadMedia, hOnP]

/-- downloadMedia with at least one item: create the records, process each,
report one fraction per record, succeed iff none failed. -/
theorem downloadMedia_spec (env : Env) (postId : String) (items : List MediaItem)
    (onP : ℚ → RunState → RunState) (ev : ℚ → ProgressEvent)
    (hOnP : ∀ q s, onP q s = { s with trace := s.trace ++ [ev q] })
    (s : RunState) (hwf : ∀ m ∈ s.db.media, m.id < s.db.nextId)
    (hne : items ≠ []) :
    downloadMedia env postId items onP s =
      ({ db := { s.db with
            media := s.db.media ++
              (freshMedia s.db.nextId (mediaInputsFrom postId 0 items)).map (processRecord env postId),
            nextId := s.db.nextId + items.length },
         trace := s.trace ++ (progressFracs items.length 0 items.length).map ev,
         downloads := s.downloads ++
           (freshMedia s.db.nextId (mediaInputsFrom postId 0 items)).filterMap (attemptedTransfer env postId),
         analyzeCalls := s.analyzeCalls },
       !(freshMedia s.db.nextId (mediaInputsFrom postId 0 items)).any
          (fun r => (processRecord env postId r).downloadStatus == .failed)) := by
  unfold downloadMedia
  rw [if_neg (by simpa using hne)]
  rw [createMediaBatch_spec]
  dsimp only
  have hlen : (freshMedia s.db.nextId (mediaInputsFrom postId 0 items)).length = items.length := by
    rw [freshMedia_length, mediaInputsFrom_length]
  have hloop := downloadMediaLoop_spec env postId onP ev hOnP
    (freshMedia s.db.nextId (mediaInputsFrom postId 0 items)).length
    (freshMedia s.db.nextId (mediaInputsFrom postId 0 items)) 0 false
    { s with db := { s.db with
        media := s.db.media ++ freshMedia s.db.nextId (mediaInputsFrom postId 0 items),
        nextId := s.db.nextId + (mediaInputsFrom postId 0 items).length } }
    s.db.media
    rfl
    (by
      intro r hr x hx
      have hx' := hwf x hx
      have hr' := (freshMedia_id_bounds s.db.nextId (mediaInputsFrom postId 0 items) r hr).1
      omega)
    (freshMedia_id_nodup s.db.nextId (mediaInputsFrom postId 0 items))
  rw [hloop]
  rw [hlen, mediaInputsFrom_length]
  simp

/-- The three posts-table lemmas: reading back an updated post, collapsing
two consecutive status writes, and the untouched fields. -/
theorem find?_map_status (id : String) (st : PostDownloadStatus) (l : List Post) :
    (l.map (fun p => if p.id == id then { p with downloadStatus := st } else p)).find?
        (fun p => p.id == id) =
      (l.find? (fun p => p.id == id)).map (fun p => { p with downloadStatus := st }) := by
  induction l with
  | nil => rfl
  | cons p t ih =>
    by_cases hp : p.id = id
    · simp [hp]
    · rw [List.map_cons, if_neg (by simpa using hp),
        List.find?_cons_of_neg _ (by simpa using hp),
        List.find?_cons_of_neg _ (by simpa using hp)]
      exact ih

theorem getPostById_updatePostStatus (db : DbState) (id : String) (st : PostDownloadStatus) :
    getPostById (updatePostStatus db id st) id =
      (getPostById db id).map (fun p => { p with downloadStatus := st }) := by
  unfold getPostById updatePostStatus
  exact find?_map_status id st db.posts

theorem updatePostStatus_twice (db : DbState) (id : String)
    (st1 st2 : PostDownloadStatus) :
    updatePostStatus (updatePostStatus db id st1) id st2 = updatePostStatus db id st2 := by
  unfold updatePostStatus
  simp only [List.map_map]
  congr 1
  apply map_congr_fn
  intro p _
  by_cases hp : (p.id == id) = true
  · simp [Function.comp, hp]
  · have hp' : (p.id == id) = false := by simpa using hp
    simp [Function.comp, hp']

/-- saveContent when a content row already exists: the database is untouched. -/
theorem saveContent_of_some (db : DbState) (postId : String) (c : CrawledContent)
    (h : (getContentByPostId db postId).isSome) :
    saveContent db postId c = db := by
  unfold saveContent
  cases hc : getContentByPostId db postId with
  | none => rw [hc] at h; cases h
  | some c0 => rfl

/-- saveContent when no content row exists: exactly one row is appended. -/
theorem saveContent_of_none (db : DbState) (postId : String) (c : CrawledContent)
    (h : getContentByPostId db postId = none) :
    saveContent db postId c =
      { db with
        contents := db.contents ++
          [{ id := db.nextId, postId := postId, text := c.text, authorName := c.authorName,
             authorId := c.authorId, originalDate := c.originalDate, viewCount := c.viewCount,
             likeCount := c.likeCount }],
        nextId := db.nextId + 1 } := by
  unfold saveContent
  rw [h]
  rfl

theorem saveContent_posts (db : DbState) (postId : String) (c : CrawledContent) :
    (saveContent db postId c).posts = db.posts := by
  unfold saveContent
  split <;> rfl

theorem saveContent_media (db : DbState) (postId : String) (c : CrawledContent) :
    (saveContent db postId c).media = db.media := by
  unfold saveContent
  split <;> rfl

theorem saveContent_aiResults (db : DbState) (postId : String) (c : CrawledContent) :
    (saveContent db postId c).aiResults = db.aiResults := by
  unfold saveContent
  split <;> rfl

theorem saveContent_groups (db : DbState) (postId : String) (c : CrawledContent) :
    (saveContent db postId c).groups = db.groups := by
  unfold saveContent
  split <;> rfl

theorem saveContent_tasks (db : DbState) (postId : String) (c : CrawledContent) :
    (saveContent db postId c).tasks = db.tasks := by
  unfold saveContent
  split <;> rfl

theorem saveContent_nextId_le (db : DbState) (postId : String) (c : CrawledContent) :
    db.nextId ≤ (saveContent db postId c).nextId := by
  unfold saveContent
  split
  · exact Nat.le_refl _
  · exact Nat.le_succ _

/-- analyzePost never touches posts, contents, media, tasks, the broadcast
trace or the transfer log, and only moves the id counter forward. -/
theorem analyzePost_preserves (env : Env) (postId : String) (s : RunState) :
    (analyzePost env postId s).1.db.posts = s.db.posts ∧
    (analyzePost env postId s).1.db.contents = s.db.contents ∧
    (analyzePost env postId s).1.db.media = s.db.media ∧
    (analyzePost env postId s).1.db.tasks = s.db.tasks ∧
    (analyzePost env postId s).1.trace = s.trace ∧
    (analyzePost env postId s).1.downloads = s.downloads ∧
    s.db.nextId ≤ (analyzePost env postId s).1.db.nextId := by
  unfold analyzePost
  split
  · simp
  · split
    · simp
    · dsimp only
      split
      · dsimp only
        split
        · split
          · simp [createAIResult, getOrCreateGroup, createGroup, incrementGroupPostCount]
            split <;> simp <;> omega
          · simp [createAIResult]
        · simp [createAIResult]
      · simp

theorem updatePostStatus_posts_congr (db db' : DbState) (id : String)
    (st : PostDownloadStatus) (h : db.posts = db'.posts) :
    (updatePostStatus db id st).posts = (updatePostStatus db' id st).posts := by
  unfold updatePostStatus
  simp [h]

theorem updatePostStatus_posts_twice (db : DbState) (id : String)
    (st1 st2 : PostDownloadStatus) :
    (updatePostStatus (updatePostStatus db id st1) id st2).posts =
      (updatePostStatus db id st2).posts :=
  congrArg DbState.posts (updatePostStatus_twice db id st1 st2)

/-- downloadPost on an unknown post id does nothing. -/
theorem downloadPost_notfound (env : Env) (postId : String) (s : RunState)
    (h : getPostById s.db postId = none) :
    downloadPost env postId s = (s, false) := by
  unfold downloadPost
  rw [h]

/-- downloadPost when the crawl reports failure or no content: the post is
marked failed, a 0-'downloading' and a terminal 0-'failed' notification are
broadcast, and nothing else changes. -/
theorem downloadPost_crawl_failed (env : Env) (postId : String) (s : RunState) (post : Post)
    (hpost : getPostById s.db postId = some post)
    (hfail : (env.crawl post.url).success = false ∨ (env.crawl post.url).content = none) :
    downloadPost env postId s =
      ({ db := updatePostStatus s.db postId .failed,
         trace := s.trace ++
           [{ postId := postId, progress := 0, status := .downloading },
            { postId := postId, progress := 0, status := .failed }],
         downloads := s.downloads, analyzeCalls := s.analyzeCalls }, false) := by
  unfold downloadPost
  rw [hpost]
  dsimp only
  split
  · next heq1 heq2 =>
    exfalso
    rcases hfail with hf | hf
    · rw [hf] at heq1; cases heq1
    · rw [hf] at heq2; cases heq2
  · simp [notifyProgress, updatePostStatus_twice]

/-- downloadPost on a successful crawl factors through the media stage
applied to the state after the persist-content stage. -/
theorem downloadPost_staged (env : Env) (postId : String) (s : RunState)
    (post : Post) (c : CrawledContent)
    (hpost : getPostById s.db postId = some post)
    (hsuc : (env.crawl post.url).success = true)
    (hcon : (env.crawl post.url).content = some c) :
    downloadPost env postId s =
      (let dm := downloadMedia env postId c.media
         (fun mediaProgress s => notifyProgress s postId (0.4 + mediaProgress * 0.45) .downloading)
         (stateAfterContent s postId c)
       let sG := (analyzePost env postId (notifyProgress dm.1 postId 0.85 .downloading)).1
       let finalStatus := if dm.2 then PostDownloadStatus.completed else .partialStatus
       (notifyProgress { sG with db := updatePostStatus sG.db postId finalStatus }
          postId 1 finalStatus, true)) := by
  unfold downloadPost stateAfterContent dbAfterContent
  rw [hpost]
  dsimp only
  rw [hsuc, hcon]
  dsimp only
  simp [notifyProgress]

theorem stateAfterContent_wf (s : RunState) (postId : String) (c : CrawledContent)
    (hwf : ∀ m ∈ s.db.media, m.id < s.db.nextId) :
    ∀ m ∈ (stateAfterContent s postId c).db.media,
      m.id < (stateAfterContent s postId c).db.nextId := by
  intro m hm
  have h1 : (stateAfterContent s postId c).db.media = s.db.media := by
    show (dbAfterContent s postId c).media = s.db.media
    unfold dbAfterContent
    rw [saveContent_media]
    rfl
  have h2 : s.db.nextId ≤ (stateAfterContent s postId c).db.nextId := by
    show s.db.nextId ≤ (dbAfterContent s postId c).nextId
    unfold dbAfterContent
    exact saveContent_nextId_le (updatePostStatus s.db postId .downloading) postId c
  rw [h1] at hm
  exact lt_of_lt_of_le (hwf m hm) h2

theorem updatePostStatus_media (db : DbState) (id : String) (st : PostDownloadStatus) :
    (updatePostStatus db id st).media = db.media := rfl

theorem updatePostStatus_contents (db : DbState) (id : String) (st : PostDownloadStatus) :
    (updatePostStatus db id st).contents = db.contents := rfl

theorem updatePostStatus_tasks (db : DbState) (id : String) (st : PostDownloadStatus) :
    (updatePostStatus db id st).tasks = db.tasks := rfl

theorem updatePostStatus_aiResults (db : DbState) (id : String) (st : PostDownloadStatus) :
    (updatePostStatus db id st).aiResults = db.aiResults := rfl

theorem updatePostStatus_groups (db : DbState) (id : String) (st : PostDownloadStatus) :
    (updatePostStatus db id st).groups = db.groups := rfl

theorem updatePostStatus_nextId (db : DbState) (id : String) (st : PostDownloadStatus) :
    (updatePostStatus db id st).nextId = db.nextId := rfl

theorem stateAfterContent_db (s : RunState) (postId : String) (c : CrawledContent) :
    (stateAfterContent s postId c).db = dbAfterContent s postId c := rfl

theorem updatePostStatus_posts_eq (db : DbState) (id : String) (st : PostDownloadStatus) :
    (updatePostStatus db id st).posts =
      db.posts.map (fun p => if p.id == id then { p with downloadStatus := st } else p) := rfl

theorem dbAfterContent_media (s : RunState) (postId : String) (c : CrawledContent) :
    (dbAfterContent s postId c).media = s.db.media := by
  unfold dbAfterContent
  rw [saveContent_media]
  rfl

theorem dbAfterContent_posts (s : RunState) (postId : String) (c : CrawledContent) :
    (dbAfterContent s postId c).posts = (updatePostStatus s.db postId .downloading).posts := by
  unfold dbAfterContent
  rw [saveContent_posts]

theorem dbAfterContent_tasks (s : RunState) (postId : String) (c : CrawledContent) :
    (dbAfterContent s postId c).tasks = s.db.tasks := by
  unfold dbAfterContent
  rw [saveContent_tasks]
  rfl

theorem dbAfterContent_groups (s : RunState) (postId : String) (c : CrawledContent) :
    (dbAfterContent s postId c).groups = s.db.groups := by
  unfold dbAfterContent
  rw [saveContent_groups]
  rfl

theorem dbAfterContent_aiResults (s : RunState) (postId : String) (c : CrawledContent) :
    (dbAfterContent s postId c).aiResults = s.db.aiResults := by
  unfold dbAfterContent
  rw [saveContent_aiResults]
  rfl

/-- downloadPost on a successful crawl: everything the run changed apart
from the enrichment tables. -/
theorem downloadPost_success (env : Env) (postId : String) (s : RunState)
    (post : Post) (c : CrawledContent)
    (hwf : ∀ m ∈ s.db.media, m.id < s.db.nextId)
    (hpost : getPostById s.db postId = some post)
    (hsuc : (env.crawl post.url).success = true)
    (hcon : (env.crawl post.url).content = some c) :
    (downloadPost env postId s).2 = true ∧
    (downloadPost env postId s).1.db.posts =
      (updatePostStatus s.db postId (runFinalStatus env s postId c)).posts ∧
    (downloadPost env postId s).1.db.media =
      s.db.media ++ (createdMedia s postId c).map (processRecord env postId) ∧
    (downloadPost env postId s).1.db.contents = (dbAfterContent s postId c).contents ∧
    (downloadPost env postId s).1.db.tasks = s.db.tasks ∧
    (downloadPost env postId s).1.trace = s.trace ++ runEvents env s postId c ∧
    (downloadPost env postId s).1.downloads =
      s.downloads ++ (createdMedia s postId c).filterMap (attemptedTransfer env postId) ∧
    (dbAfterContent s postId c).nextId + c.media.length ≤
      (downloadPost env postId s).1.db.nextId := by
  rw [downloadPost_staged env postId s post c hpost hsuc hcon]
  dsimp only
  by_cases hm : c.media = []
  · rw [hm]
    rw [downloadMedia_spec_empty env postId
      (fun mediaProgress s => notifyProgress s postId (0.4 + mediaProgress * 0.45) .downloading)
      (fun q => { postId := postId, progress := 0.4 + q * 0.45, status := .downloading })
      (fun q st => rfl) (stateAfterContent s postId c)]
    dsimp only
    have hcreated : createdMedia s postId c = [] := by
      unfold createdMedia
      rw [hm]
      rfl
    have hfinal : runFinalStatus env s postId c = .completed := by
      unfold runFinalStatus runMediaOk
      rw [hcreated]
      rfl
    refine ⟨rfl, ?_, ?_, ?_, ?_, ?_, ?_, ?_⟩
    · rw [notifyProgress]
      dsimp only
      rw [updatePostStatus_posts_congr _ _ _ _ ((analyzePost_preserves env postId _).1)]
      rw [notifyProgress]
      dsimp only
      rw [stateAfterContent_db]
      rw [updatePostStatus_posts_congr _ _ _ _ (dbAfterContent_posts s postId c)]
      rw [updatePostStatus_posts_twice, hfinal]
      rfl
    · rw [notifyProgress]
      dsimp only
      rw [updatePostStatus_media, (analyzePost_preserves env postId _).2.2.1]
      rw [hcreated]
      simp [notifyProgress, stateAfterContent_db, dbAfterContent_media]
    · rw [notifyProgress]
      dsimp only
      rw [updatePostStatus_contents, (analyzePost_preserves env postId _).2.1]
      simp [notifyProgress, stateAfterContent_db]
    · rw [notifyProgress]
      dsimp only
      rw [updatePostStatus_tasks, (analyzePost_preserves env postId _).2.2.2.1]
      simp [notifyProgress, stateAfterContent_db, dbAfterContent_tasks]
    · rw [notifyProgress]
      dsimp only
      rw [(analyzePost_preserves env postId _).2.2.2.2.1]
      unfold runEvents mediaProgressEvents
      rw [hm, hfinal]
      simp [notifyProgress, stateAfterContent]
    · rw [notifyProgress]
      dsimp only
      rw [(analyzePost_preserves env postId _).2.2.2.2.2.1]
      rw [hcreated]
      simp [notifyProgress, stateAfterContent]
    · rw [notifyProgress]
      dsimp only
      rw [updatePostStatus_nextId]
      have hmono := (analyzePost_preserves env postId
        (notifyProgress { (stateAfterContent s postId c) with
          trace := (stateAfterContent s postId c).trace ++
            [{ postId := postId, progress := 0.4 + 1 * 0.45, status := .downloading }] }
          postId 0.85 .downloading)).2.2.2.2.2.2
      refine le_trans ?_ hmono
      simp [notifyProgress, stateAfterContent_db]
  · rw [downloadMedia_spec env postId c.media
      (fun mediaProgress s => notifyProgress s postId (0.4 + mediaProgress * 0.45) .downloading)
      (fun q => { postId := postId, progress := 0.4 + q * 0.45, status := .downloading })
      (fun q st => rfl) (stateAfterContent s postId c)
      (stateAfterContent_wf s postId c hwf) hm]
    dsimp only
    have hcreated : createdMedia s postId c =
        freshMedia (stateAfterContent s postId c).db.nextId (mediaInputsFrom postId 0 c.media) := rfl
    have hflag : (!(freshMedia (stateAfterContent s postId c).db.nextId
          (mediaInputsFrom postId 0 c.media)).any
            (fun r => (processRecord env postId r).downloadStatus == .failed)) =
        runMediaOk env s postId c := rfl
    have hposts2 : (stateAfterContent s postId c).db.posts =
        (updatePostStatus s.db postId .downloading).posts := by
      rw [stateAfterContent_db]
      exact dbAfterContent_posts s postId c
    refine ⟨rfl, ?_, ?_, ?_, ?_, ?_, ?_, ?_⟩
    · rw [notifyProgress]
      dsimp only
      rw [updatePostStatus_posts_congr _ _ _ _ ((analyzePost_preserves env postId _).1)]
      rw [notifyProgress]
      dsimp only
      rw [updatePostStatus_posts_eq]
      dsimp only
      rw [hposts2]
      rw [← updatePostStatus_posts_eq]
      rw [updatePostStatus_posts_twice, hflag]
      rfl
    · rw [notifyProgress]
      dsimp only
      rw [updatePostStatus_media, (analyzePost_preserves env postId _).2.2.1]
      rw [← hcreated]
      simp [notifyProgress, stateAfterContent_db, dbAfterContent_media]
    · rw [notifyProgress]
      dsimp only
      rw [updatePostStatus_contents, (analyzePost_preserves env postId _).2.1]
      simp [notifyProgress, stateAfterContent_db]
    · rw [notifyProgress]
      dsimp only
      rw [updatePostStatus_tasks, (analyzePost_preserves env postId _).2.2.2.1]
      simp [notifyProgress, stateAfterContent_db, dbAfterContent_tasks]
    · rw [notifyProgress]
      dsimp only
      rw [(analyzePost_preserves env postId _).2.2.2.2.1]
      rw [hflag]
      have hrf : (if runMediaOk env s postId c = true then PostDownloadStatus.completed
          else PostDownloadStatus.partialStatus) = runFinalStatus env s postId c := rfl
      rw [hrf]
      unfold runEvents mediaProgressEvents
      rw [if_neg (by simpa using hm)]
      simp [notifyProgress, stateAfterContent]
    · rw [notifyProgress]
      dsimp only
      rw [(analyzePost_preserves env postId _).2.2.2.2.2.1]
      rw [← hcreated]
      simp [notifyProgress, stateAfterContent]
    · rw [notifyProgress]
      dsimp only
      rw [updatePostStatus_nextId]
      refine le_trans ?_ ((analyzePost_preserves env postId _).2.2.2.2.2.2)
      rw [notifyProgress]
      dsimp only
      rw [stateAfterContent_db]

theorem dbAfterContent_nextId_ge (s : RunState) (postId : String) (c : CrawledContent) :
    s.db.nextId ≤ (dbAfterContent s postId c).nextId := by
  unfold dbAfterContent
  exact saveContent_nextId_le (updatePostStatus s.db postId .downloading) postId c

theorem createdMedia_of_nil (s : RunState) (postId : String) (c : CrawledContent)
    (h : c.media = []) : createdMedia s postId c = [] := by
  unfold createdMedia
  rw [h]
  rfl

/-- runMediaOk says exactly that no created record ended failed. -/
theorem runMediaOk_iff (env : Env) (s : RunState) (postId : String) (c : CrawledContent) :
    runMediaOk env s postId c = true ↔
      ∀ m ∈ (createdMedia s postId c).map (processRecord env postId),
        m.downloadStatus ≠ .failed := by
  unfold runMediaOk
  simp

/-! ## The claims -/

/-- C2: for every run where the crawl step fails, the post ends in
downloadStatus failed, no media records are created, the run returns false,
and exactly one terminal notification is broadcast, carrying fraction 0. -/
theorem crawl_failure_contract (env : Env) (postId : String) (s : RunState) (post : Post)
    (hpost : getPostById s.db postId = some post)
    (hfail : (env.crawl post.url).success = false ∨ (env.crawl post.url).content = none) :
    (getPostById (downloadPost env postId s).1.db postId).map Post.downloadStatus =
      some .failed ∧
    (downloadPost env postId s).1.db.media = s.db.media ∧
    (newEvents (downloadPost env postId s).1 s.trace).filter
      (fun e => terminalStatus e.status) =
      [{ postId := postId, progress := 0, status := .failed }] ∧
    (downloadPost env postId s).2 = false := by
  rw [downloadPost_crawl_failed env postId s post hpost hfail]
  dsimp only
  refine ⟨?_, rfl, ?_, rfl⟩
  · rw [getPostById_updatePostStatus, hpost]
    rfl
  · unfold newEvents
    dsimp only
    rw [List.drop_left]
    simp [terminalStatus]

/-- C3 (evaluation): the pipeline never creates or updates any DownloadTask
record — neither a plain run nor a retry touches the download_tasks table,
so the Task state machine of the specification is not maintained by the
code. -/
theorem tasks_never_maintained (env : Env) (postId : String) (s : RunState)
    (hwf : ∀ m ∈ s.db.media, m.id < s.db.nextId) :
    (downloadPost env postId s).1.db.tasks = s.db.tasks ∧
    (retryDownload env postId s).1.db.tasks = s.db.tasks := by
  have main : (downloadPost env postId s).1.db.tasks = s.db.tasks := by
    cases hcase : getPostById s.db postId with
    | none => rw [downloadPost_notfound env postId s hcase]
    | some post =>
      cases hs : (env.crawl post.url).success with
      | false =>
        rw [downloadPost_crawl_failed env postId s post hcase (Or.inl hs)]
        rfl
      | true =>
        cases hc : (env.crawl post.url).content with
        | none =>
          rw [downloadPost_crawl_failed env postId s post hcase (Or.inr hc)]
          rfl
        | some c => exact (downloadPost_success env postId s post c hwf hcase hs hc).2.2.2.2.1
  exact ⟨main, main⟩

theorem tasks_never_maintained_witness :
    (downloadPost wEnvOk "p1" wState).1.db.tasks = wState.db.tasks ∧
    (retryDownload wEnvOk "p1" wState).1.db.tasks = wState.db.tasks :=
  tasks_never_maintained wEnvOk "p1" wState (by intro m hm; cases hm)

/-- The records of the run are exactly the filter of fresh ids. -/
theorem downloadPost_newMedia (env : Env) (postId : String) (s : RunState)
    (post : Post) (c : CrawledContent)
    (hwf : ∀ m ∈ s.db.media, m.id < s.db.nextId)
    (hpost : getPostById s.db postId = some post)
    (hsuc : (env.crawl post.url).success = true)
    (hcon : (env.crawl post.url).content = some c) :
    newMediaSince (downloadPost env postId s).1.db s.db.nextId =
      (createdMedia s postId c).map (processRecord env postId) := by
  obtain ⟨-, -, hmedia, -, -, -, -, -⟩ :=
    downloadPost_success env postId s post c hwf hpost hsuc hcon
  unfold newMediaSince
  rw [hmedia, List.filter_append]
  have h1 : s.db.media.filter (fun m => s.db.nextId ≤ m.id) = [] := by
    rw [List.filter_eq_nil_iff]
    intro m hm
    simpa using Nat.not_le.mpr (hwf m hm)
  have h2 : ((createdMedia s postId c).map (processRecord env postId)).filter
      (fun m => s.db.nextId ≤ m.id) =
      (createdMedia s postId c).map (processRecord env postId) := by
    rw [List.filter_eq_self]
    intro m hm
    rcases List.mem_map.mp hm with ⟨r, hr, rfl⟩
    have hb := (freshMedia_id_bounds _ _ r hr).1
    have hge := dbAfterContent_nextId_ge s postId c
    rw [processRecord_id]
    simpa using le_trans hge hb
  rw [h1, h2, List.nil_append]

/-- C1: on a successful crawl the final post status is completed exactly
when no media record created by the run ended failed, and partial otherwise;
zero media gives completed; a run whose every created record failed still
gives partial, never failed. -/
theorem final_status_reflects_media_failures (env : Env) (postId : String) (s : RunState)
    (post : Post) (c : CrawledContent)
    (hwf : ∀ m ∈ s.db.media, m.id < s.db.nextId)
    (hpost : getPostById s.db postId = some post)
    (hsuc : (env.crawl post.url).success = true)
    (hcon : (env.crawl post.url).content = some c) :
    ((getPostById (downloadPost env postId s).1.db postId).map Post.downloadStatus =
        some .completed ↔
      ∀ m ∈ newMediaSince (downloadPost env postId s).1.db s.db.nextId,
        m.downloadStatus ≠ .failed) ∧
    ((getPostById (downloadPost env postId s).1.db postId).map Post.downloadStatus =
        some .completed ∨
     (getPostById (downloadPost env postId s).1.db postId).map Post.downloadStatus =
        some .partialStatus) ∧
    (c.media = [] →
      (getPostById (downloadPost env postId s).1.db postId).map Post.downloadStatus =
        some .completed) ∧
    (newMediaSince (downloadPost env postId s).1.db s.db.nextId ≠ [] →
      (∀ m ∈ newMediaSince (downloadPost env postId s).1.db s.db.nextId,
        m.downloadStatus = .failed) →
      (getPostById (downloadPost env postId s).1.db postId).map Post.downloadStatus =
        some .partialStatus) := by
  obtain ⟨-, hposts, hmedia, -, -, -, -⟩ :=
    downloadPost_success env postId s post c hwf hpost hsuc hcon
  have hstatus : (getPostById (downloadPost env postId s).1.db postId).map Post.downloadStatus
      = some (runFinalStatus env s postId c) := by
    have hsame : getPostById (downloadPost env postId s).1.db postId =
        getPostById (updatePostStatus s.db postId (runFinalStatus env s postId c)) postId := by
      unfold getPostById
      rw [hposts]
    rw [hsame, getPostById_updatePostStatus, hpost]
    rfl
  have hnew := downloadPost_newMedia env postId s post c hwf hpost hsuc hcon
  rw [hstatus, hnew]
  refine ⟨?_, ?_, ?_, ?_⟩
  · constructor
    · intro hc'
      apply (runMediaOk_iff env s postId c).mp
      unfold runFinalStatus at hc'
      by_contra hok
      rw [if_neg (by simpa using hok)] at hc'
      cases hc'
    · intro hall
      unfold runFinalStatus
      rw [if_pos ((runMediaOk_iff env s postId c).mpr hall)]
  · unfold runFinalStatus
    split
    · exact Or.inl rfl
    · exact Or.inr rfl
  · intro hmnil
    unfold runFinalStatus
    rw [if_pos ((runMediaOk_iff env s postId c).mpr (by rw [createdMedia_of_nil s postId c hmnil]; intro m hm; cases hm))]
  · intro hne hall
    unfold runFinalStatus
    rw [if_neg ?_]
    intro hok
    rcases List.exists_mem_of_ne_nil _ hne with ⟨m0, hm0⟩
    exact ((runMediaOk_iff env s postId c).mp hok m0 hm0) (hall m0 hm0)

theorem final_status_reflects_media_failures_witness :
    ((getPostById (downloadPost wEnvOk "p1" wState).1.db "p1").map Post.downloadStatus =
        some .completed ↔
      ∀ m ∈ newMediaSince (downloadPost wEnvOk "p1" wState).1.db wState.db.nextId,
        m.downloadStatus ≠ .failed) ∧
    ((getPostById (downloadPost wEnvOk "p1" wState).1.db "p1").map Post.downloadStatus =
        some .completed ∨
     (getPostById (downloadPost wEnvOk "p1" wState).1.db "p1").map Post.downloadStatus =
        some .partialStatus) ∧
    (wContentOneImage.media = [] →
      (getPostById (downloadPost wEnvOk "p1" wState).1.db "p1").map Post.downloadStatus =
        some .completed) ∧
    (newMediaSince (downloadPost wEnvOk "p1" wState).1.db wState.db.nextId ≠ [] →
      (∀ m ∈ newMediaSince (downloadPost wEnvOk "p1" wState).1.db wState.db.nextId,
        m.downloadStatus = .failed) →
      (getPostById (downloadPost wEnvOk "p1" wState).1.db "p1").map Post.downloadStatus =
        some .partialStatus) :=
  final_status_reflects_media_failures wEnvOk "p1" wState wPost wContentOneImage
    (by intro m hm; cases hm) rfl rfl rfl

theorem crawl_failure_contract_witness :
    (getPostById (downloadPost wEnvFail "p1" wState).1.db "p1").map Post.downloadStatus =
      some .failed ∧
    (downloadPost wEnvFail "p1" wState).1.db.media = wState.db.media ∧
    (newEvents (downloadPost wEnvFail "p1" wState).1 wState.trace).filter
      (fun e => terminalStatus e.status) =
      [{ postId := "p1", progress := 0, status := .failed }] ∧
    (downloadPost wEnvFail "p1" wState).2 = false :=
  crawl_failure_contract wEnvFail "p1" wState wPost rfl (Or.inl rfl)

/-! ## Progress monotonicity (C7) -/

theorem progressFracs_div_le (a b : ℚ) (n : Nat) (hab : a ≤ b) :
    a / (n : ℚ) ≤ b / (n : ℚ) := by
  rcases Nat.eq_zero_or_pos n with hn | hn
  · subst hn
    simp
  · have hpos : (0 : ℚ) < (n : ℚ) := by exact_mod_cast hn
    exact (div_le_div_iff_of_pos_right hpos).mpr hab

theorem progressFracs_chain (n : Nat) :
    ∀ (k cc : Nat), List.Chain' (· ≤ ·) (progressFracs n cc k) := by
  intro k
  induction k with
  | zero => intro cc; exact List.chain'_nil
  | succ k ih =>
    intro cc
    cases k with
    | zero => exact List.chain'_singleton _
    | succ k' =>
      rw [progressFracs, progressFracs]
      refine List.Chain'.cons ?_ ?_
      · exact progressFracs_div_le _ _ n (by push_cast; linarith)
      · have := ih (cc + 1)
        rw [progressFracs] at this
        exact this

theorem progressFracs_head (n : Nat) (cc k : Nat) (hk : k ≠ 0) :
    (progressFracs n cc k).head? = some (((cc : ℚ) + 1) / (n : ℚ)) := by
  cases k with
  | zero => exact absurd rfl hk
  | succ k' => rfl

theorem progressFracs_getLast (n : Nat) :
    ∀ (k cc : Nat), k ≠ 0 →
      (progressFracs n cc k).getLast? = some (((cc : ℚ) + (k : ℚ)) / (n : ℚ)) := by
  intro k
  induction k with
  | zero => intro cc h; exact absurd rfl h
  | succ k' ih =>
    intro cc _
    cases hk' : k' with
    | zero =>
      simp [progressFracs]
    | succ k'' =>
      subst hk'
      rw [progressFracs, progressFracs, List.getLast?_cons_cons, ← progressFracs]
      rw [ih (cc + 1) (by omega)]
      congr 2
      push_cast
      ring

theorem progressFracs_length (n : Nat) :
    ∀ (k cc : Nat), (progressFracs n cc k).length = k := by
  intro k
  induction k with
  | zero => intro cc; rfl
  | succ k' ih =>
    intro cc
    rw [progressFracs, List.length_cons, ih (cc + 1)]

theorem mediaProgressEvents_facts (postId : String) (k : Nat) :
    List.Chain' (fun a b : ProgressEvent => a.progress ≤ b.progress)
      (mediaProgressEvents postId k) ∧
    (∀ e ∈ (mediaProgressEvents postId k).head?, (0.4 : ℚ) ≤ e.progress) ∧
    (∀ e ∈ (mediaProgressEvents postId k).getLast?, e.progress ≤ 0.85) ∧
    mediaProgressEvents postId k ≠ [] ∧
    (∀ e ∈ mediaProgressEvents postId k, e.postId = postId) := by
  unfold mediaProgressEvents
  by_cases hk : k = 0
  · rw [if_pos hk]
    refine ⟨List.chain'_singleton _, ?_, ?_, by simp, by simp⟩
    · intro e he
      simp only [List.head?_cons, Option.mem_def, Option.some.injEq] at he
      rw [← he]
      norm_num
    · intro e he
      simp only [List.getLast?_singleton, Option.mem_def, Option.some.injEq] at he
      rw [← he]
      norm_num
  · rw [if_neg hk]
    have hkq : ((k : ℚ)) ≠ 0 := by exact_mod_cast hk
    refine ⟨?_, ?_, ?_, ?_, ?_⟩
    · rw [List.chain'_map]
      refine List.Chain'.imp ?_ (progressFracs_chain k k 0)
      intro a b hab
      dsimp only
      nlinarith
    · intro e he
      rw [List.head?_map, progressFracs_head k 0 k hk] at he
      simp only [Option.map_some', Option.mem_def, Option.some.injEq] at he
      rw [← he]
      dsimp only
      have h1 : (0 : ℚ) ≤ ((0 : ℚ) + 1) / (k : ℚ) := by positivity
      nlinarith
    · intro e he
      rw [List.getLast?_map, progressFracs_getLast k k 0 hk] at he
      simp only [Option.map_some', Option.mem_def, Option.some.injEq] at he
      rw [← he]
      dsimp only
      push_cast
      rw [zero_add, div_self hkq]
      norm_num
    · intro hnil
      have := congrArg List.length hnil
      rw [List.length_map, progressFracs_length] at this
      exact hk this
    · intro e he
      rcases List.mem_map.mp he with ⟨q, _, rfl⟩
      rfl

/-- C7: across one run the progress fractions broadcast for the post are
monotonically non-decreasing, every event of the run names that post, and a
retry is exactly a fresh run (which starts again at fraction 0). -/
theorem progress_monotone_within_run (env : Env) (postId : String) (s : RunState)
    (hwf : ∀ m ∈ s.db.media, m.id < s.db.nextId) :
    List.Chain' (fun a b : ProgressEvent => a.progress ≤ b.progress)
      (newEvents (downloadPost env postId s).1 s.trace) ∧
    (∀ e ∈ newEvents (downloadPost env postId s).1 s.trace, e.postId = postId) ∧
    retryDownload env postId s = downloadPost env postId s := by
  refine ⟨?_, ?_, rfl⟩ <;>
  · cases hcase : getPostById s.db postId with
    | none =>
      rw [downloadPost_notfound env postId s hcase]
      unfold newEvents
      simp
    | some post =>
      cases hs : (env.crawl post.url).success with
      | false =>
        rw [downloadPost_crawl_failed env postId s post hcase (Or.inl hs)]
        unfold newEvents
        dsimp only
        rw [List.drop_left]
        simp [List.chain'_cons]
      | true =>
        cases hc : (env.crawl post.url).content with
        | none =>
          rw [downloadPost_crawl_failed env postId s post hcase (Or.inr hc)]
          unfold newEvents
          dsimp only
          rw [List.drop_left]
          simp [List.chain'_cons]
        | some c =>
          have htrace := (downloadPost_success env postId s post c hwf hcase hs hc).2.2.2.2.2.1
          have hevents : newEvents (downloadPost env postId s).1 s.trace =
              runEvents env s postId c := by
            unfold newEvents
            rw [htrace, List.drop_left]
          rw [hevents]
          obtain ⟨hchain_m, hhead_m, hlast_m, hne_m, hpid_m⟩ :=
            mediaProgressEvents_facts postId c.media.length
          unfold runEvents
          first
          | (refine List.chain'_append.mpr
              ⟨List.chain'_append.mpr ⟨?_, hchain_m, ?_⟩, ?_, ?_⟩
             · simp [List.chain'_cons]
               norm_num
             · intro x hx y hy
               simp only [List.getLast?_cons_cons, List.getLast?_singleton,
                 Option.mem_def, Option.some.injEq] at hx
               have h04 := hhead_m y hy
               rw [← hx]
               exact h04
             · simp [List.chain'_cons]
               norm_num
             · intro x hx y hy
               simp only [List.head?_cons, Option.mem_def, Option.some.injEq] at hy
               rw [List.getLast?_append_of_ne_nil _ hne_m] at hx
               have := hlast_m x hx
               rw [← hy]
               exact this)
          | (intro e he
             simp only [List.mem_append, List.mem_cons,
               List.not_mem_nil, or_false] at he
             rcases he with ((h | h | h) | h) | (h | h)
             · rw [h]
             · rw [h]
             · rw [h]
             · exact hpid_m e h
             · rw [h]
             · rw [h])

theorem progress_monotone_within_run_witness :
    List.Chain' (fun a b : ProgressEvent => a.progress ≤ b.progress)
      (newEvents (downloadPost wEnvOk "p1" wState).1 wState.trace) ∧
    (∀ e ∈ newEvents (downloadPost wEnvOk "p1" wState).1 wState.trace, e.postId = "p1") ∧
    retryDownload wEnvOk "p1" wState = downloadPost wEnvOk "p1" wState :=
  progress_monotone_within_run wEnvOk "p1" wState (by intro m hm; cases hm)

/-! ## Content idempotence (C9) -/

theorem getContentByPostId_updatePostStatus (db : DbState) (id : String)
    (st : PostDownloadStatus) (postId : String) :
    getContentByPostId (updatePostStatus db id st) postId = getContentByPostId db postId := rfl

theorem contentCountFor_of_none (db : DbState) (postId : String)
    (h : getContentByPostId db postId = none) : contentCountFor db postId = 0 := by
  unfold contentCountFor
  unfold getContentByPostId at h
  rw [List.find?_eq_none] at h
  rw [List.filter_eq_nil_iff.mpr h]
  rfl

theorem downloadPost_preserves_contents_of_some (env : Env) (postId : String) (s : RunState)
    (hwf : ∀ m ∈ s.db.media, m.id < s.db.nextId)
    (hsome : (getContentByPostId s.db postId).isSome) :
    (downloadPost env postId s).1.db.contents = s.db.contents := by
  cases hcase : getPostById s.db postId with
  | none => rw [downloadPost_notfound env postId s hcase]
  | some post =>
    cases hs : (env.crawl post.url).success with
    | false =>
      rw [downloadPost_crawl_failed env postId s post hcase (Or.inl hs)]
      rfl
    | true =>
      cases hc : (env.crawl post.url).content with
      | none =>
        rw [downloadPost_crawl_failed env postId s post hcase (Or.inr hc)]
        rfl
      | some c =>
        rw [(downloadPost_success env postId s post c hwf hcase hs hc).2.2.2.1]
        unfold dbAfterContent
        rw [saveContent_of_some (updatePostStatus s.db postId .downloading) postId c hsome]
        rfl

theorem downloadPost_preserves_wf (env : Env) (postId : String) (s : RunState)
    (hwf : ∀ m ∈ s.db.media, m.id < s.db.nextId) :
    ∀ m ∈ (downloadPost env postId s).1.db.media,
      m.id < (downloadPost env postId s).1.db.nextId := by
  cases hcase : getPostById s.db postId with
  | none =>
    rw [downloadPost_notfound env postId s hcase]
    exact hwf
  | some post =>
    cases hs : (env.crawl post.url).success with
    | false =>
      rw [downloadPost_crawl_failed env postId s post hcase (Or.inl hs)]
      exact hwf
    | true =>
      cases hc : (env.crawl post.url).content with
      | none =>
        rw [downloadPost_crawl_failed env postId s post hcase (Or.inr hc)]
        exact hwf
      | some c =>
        obtain ⟨-, -, hmedia, -, -, -, -, hnext⟩ :=
          downloadPost_success env postId s post c hwf hcase hs hc
        intro m hm
        rw [hmedia] at hm
        rcases List.mem_append.mp hm with h | h
        · have h1 := hwf m h
          have h2 := dbAfterContent_nextId_ge s postId c
          omega
        · rcases List.mem_map.mp h with ⟨r, hr, rfl⟩
          have hb := (freshMedia_id_bounds _ _ r hr).2
          rw [mediaInputsFrom_length] at hb
          rw [processRecord_id]
          omega

/-- C9: a second run on a post whose Content row exists creates no duplicate
Content row, and in general one run leaves at most one Content row per post. -/
theorem content_persisted_at_most_once (envA envB : Env) (postId : String) (s : RunState)
    (hwf : ∀ m ∈ s.db.media, m.id < s.db.nextId)
    (hsome : (getContentByPostId s.db postId).isSome) :
    (downloadPost envB postId (downloadPost envA postId s).1).1.db.contents =
      s.db.contents ∧
    (∀ (env : Env) (t : RunState), (∀ m ∈ t.db.media, m.id < t.db.nextId) →
      contentCountFor (downloadPost env postId t).1.db postId ≤
        max (contentCountFor t.db postId) 1) := by
  constructor
  · have h1 := downloadPost_preserves_contents_of_some envA postId s hwf hsome
    have hwf1 := downloadPost_preserves_wf envA postId s hwf
    have hsome1 : (getContentByPostId (downloadPost envA postId s).1.db postId).isSome := by
      unfold getContentByPostId
      rw [h1]
      exact hsome
    have h2 := downloadPost_preserves_contents_of_some envB postId
      (downloadPost envA postId s).1 hwf1 hsome1
    rw [h2, h1]
  · intro env t hwft
    cases hcase : getPostById t.db postId with
    | none =>
      rw [downloadPost_notfound env postId t hcase]
      exact le_max_left _ _
    | some post =>
      cases hs : (env.crawl post.url).success with
      | false =>
        rw [downloadPost_crawl_failed env postId t post hcase (Or.inl hs)]
        exact le_max_left _ _
      | true =>
        cases hc : (env.crawl post.url).content with
        | none =>
          rw [downloadPost_crawl_failed env postId t post hcase (Or.inr hc)]
          exact le_max_left _ _
        | some c =>
          have hcont := (downloadPost_success env postId t post c hwft hcase hs hc).2.2.2.1
          have hcc : contentCountFor (downloadPost env postId t).1.db postId =
              contentCountFor (dbAfterContent t postId c) postId := by
            unfold contentCountFor
            rw [hcont]
          rw [hcc]
          unfold dbAfterContent
          cases hex : getContentByPostId (updatePostStatus t.db postId .downloading) postId with
          | some c0 =>
            rw [saveContent_of_some _ _ _ (by rw [hex]; rfl)]
            exact le_max_left _ _
          | none =>
            rw [saveContent_of_none _ _ _ hex]
            have hzero : contentCountFor t.db postId = 0 :=
              contentCountFor_of_none t.db postId hex
            unfold contentCountFor at hzero ⊢
            dsimp only
            rw [updatePostStatus_contents, List.filter_append, List.length_append, hzero]
            simp

theorem content_persisted_at_most_once_witness :
    (downloadPost wEnvOk "p1" (downloadPost wEnvOk "p1" wStateRetry).1).1.db.contents =
      wStateRetry.db.contents ∧
    (∀ (env : Env) (t : RunState), (∀ m ∈ t.db.media, m.id < t.db.nextId) →
      contentCountFor (downloadPost env "p1" t).1.db "p1" ≤
        max (contentCountFor t.db "p1") 1) :=
  content_persisted_at_most_once wEnvOk wEnvOk "p1" wStateRetry (by decide) rfl

/-! ## The video size ceiling (C4) -/

/-- C4 counterexample: a video whose HEAD probe reports no size downloads to
completion even though its measured size, 150 MB, exceeds the 100 MB
ceiling — the claim demands terminal status skipped for any video whose
known or measured size exceeds the ceiling. -/
theorem oversized_video_completed_counterexample :
    ∃ m ∈ (downloadPost wEnvBigVideoUnknownProbe "p1" wState).1.db.media,
      m.type = .video ∧ m.fileSize = some 157286400 ∧
      MAX_VIDEO_SIZE_BYTES < 157286400 ∧
      m.downloadStatus = .completed ∧ m.downloadStatus ≠ .skipped := by
  decide

theorem media_failed_skipped_disjoint (l : List Media) :
    (l.filter (fun m => m.downloadStatus == MediaDownloadStatus.failed)).length +
      (l.filter (fun m => m.downloadStatus == MediaDownloadStatus.skipped)).length ≤
      l.length := by
  induction l with
  | nil => simp
  | cons m t ih =>
    rw [List.filter_cons, List.filter_cons, List.length_cons]
    cases hst : m.downloadStatus <;> simp <;> omega

/-- C4 (amended): a video whose probe-reported size exceeds the 100 MB
ceiling is skipped and never completed, every transfer the run starts is for
a record that is not such a video, and skipped records never count toward
mediaFailed in getDownloadStatus (when the probe cannot determine the size
the transfer proceeds, as the counterexample shows). -/
theorem oversized_video_skipped (env : Env) (postId : String) (s : RunState)
    (post : Post) (c : CrawledContent)
    (hwf : ∀ m ∈ s.db.media, m.id < s.db.nextId)
    (hpost : getPostById s.db postId = some post)
    (hsuc : (env.crawl post.url).success = true)
    (hcon : (env.crawl post.url).content = some c) :
    (∀ m ∈ newMediaSince (downloadPost env postId s).1.db s.db.nextId,
      m.type = .video →
      (∃ sz, env.contentLength m.remoteUrl = some sz ∧ MAX_VIDEO_SIZE_BYTES < sz) →
      m.downloadStatus = .skipped ∧ m.downloadStatus ≠ .completed) ∧
    (∀ d ∈ ((downloadPost env postId s).1.downloads).drop s.downloads.length,
      ∃ r ∈ createdMedia s postId c,
        d = (r.remoteUrl, getMediaPath postId r.sortOrder r.type) ∧
        ¬(r.type = .video ∧
          ∃ sz, env.contentLength r.remoteUrl = some sz ∧ MAX_VIDEO_SIZE_BYTES < sz)) ∧
    (∀ (db : DbState) (pid : String) (info : DownloadStatusInfo),
      getDownloadStatus db pid = some info →
      info.mediaFailed +
        ((getMediaByPostId db pid).filter
          (fun m => m.downloadStatus == MediaDownloadStatus.skipped)).length ≤
        info.mediaTotal) := by
  have hskip_of : ∀ r : Media, r.type = .video →
      (∃ sz, env.contentLength r.remoteUrl = some sz ∧ MAX_VIDEO_SIZE_BYTES < sz) →
      recordSkips env r = true := by
    intro r hty ⟨sz, hsz, hgt⟩
    unfold recordSkips isVideoWithinLimit checkRemoteFileSize
    rw [hty, hsz]
    simp [Nat.not_le.mpr hgt]
  refine ⟨?_, ?_, ?_⟩
  · rw [downloadPost_newMedia env postId s post c hwf hpost hsuc hcon]
    intro m hm hty hsz
    rcases List.mem_map.mp hm with ⟨r, hr, rfl⟩
    have hty' : r.type = .video := by rw [← processRecord_type env postId r]; exact hty
    have hurl : r.remoteUrl = (processRecord env postId r).remoteUrl :=
      (processRecord_remoteUrl env postId r).symm
    have hskips : recordSkips env r = true := by
      apply hskip_of r hty'
      rw [hurl]
      exact hsz
    constructor
    · exact processRecord_status_of_skips env postId r hskips
    · rw [processRecord_status_of_skips env postId r hskips]
      intro h
      cases h
  · obtain ⟨-, -, -, -, -, -, hdl, -⟩ :=
      downloadPost_success env postId s post c hwf hpost hsuc hcon
    rw [hdl, List.drop_left]
    intro d hd
    rcases List.mem_filterMap.mp hd with ⟨r, hr, hatt⟩
    refine ⟨r, hr, ?_, ?_⟩
    · by_cases hsk : recordSkips env r = true
      · rw [attemptedTransfer_of_skips env postId r hsk] at hatt
        cases hatt
      · have hskf : recordSkips env r = false := by simpa using hsk
        rw [attemptedTransfer_of_not_skips env postId r hskf] at hatt
        exact (Option.some.injEq _ _ ▸ hatt).symm
    · intro ⟨hty, hsz⟩
      have hskips := hskip_of r hty hsz
      rw [attemptedTransfer_of_skips env postId r hskips] at hatt
      cases hatt
  · intro db pid info hinfo
    unfold getDownloadStatus at hinfo
    cases hp : getPostById db pid with
    | none => rw [hp] at hinfo; cases hinfo
    | some p =>
      rw [hp] at hinfo
      dsimp only at hinfo
      injection hinfo with h
      subst h
      exact media_failed_skipped_disjoint (getMediaByPostId db pid)

theorem oversized_video_skipped_witness :
    (∀ m ∈ newMediaSince (downloadPost wEnvBigVideoKnownProbe "p1" wState).1.db
        wState.db.nextId,
      m.type = .video →
      (∃ sz, wEnvBigVideoKnownProbe.contentLength m.remoteUrl = some sz ∧
        MAX_VIDEO_SIZE_BYTES < sz) →
      m.downloadStatus = .skipped ∧ m.downloadStatus ≠ .completed) ∧
    (∀ d ∈ ((downloadPost wEnvBigVideoKnownProbe "p1" wState).1.downloads).drop
        wState.downloads.length,
      ∃ r ∈ createdMedia wState "p1" wContentOneVideo,
        d = (r.remoteUrl, getMediaPath "p1" r.sortOrder r.type) ∧
        ¬(r.type = .video ∧
          ∃ sz, wEnvBigVideoKnownProbe.contentLength r.remoteUrl = some sz ∧
            MAX_VIDEO_SIZE_BYTES < sz)) ∧
    (∀ (db : DbState) (pid : String) (info : DownloadStatusInfo),
      getDownloadStatus db pid = some info →
      info.mediaFailed +
        ((getMediaByPostId db pid).filter
          (fun m => m.downloadStatus == MediaDownloadStatus.skipped)).length ≤
        info.mediaTotal) :=
  oversized_video_skipped wEnvBigVideoKnownProbe "p1" wState wPost wContentOneVideo
    (by intro m hm; cases hm) rfl rfl rfl

/-! ## The download queue (C5) -/

theorem enqueueAll_sorted (ops : List (String × Int × Nat)) :
    ∀ (q : List DownloadQueueItem), List.Sorted queueLE q →
      List.Sorted queueLE (enqueueAll q ops) := by
  induction ops with
  | nil => intro q hq; exact hq
  | cons op rest ih =>
    intro q hq
    rcases op with ⟨postId, priority, now⟩
    rw [enqueueAll]
    apply ih
    unfold queueDownload
    split
    · exact hq
    · exact List.sorted_insertionSort queueLE _

/-- C5: re-enqueuing an already-queued post id leaves the queue unchanged,
and after any sequence of enqueues the queue is ordered by descending
priority with ties broken by ascending enqueue time, so items are dequeued
(head first) in that order. -/
theorem queue_idempotent_and_ordered :
    (∀ (q : List DownloadQueueItem) (postId : String) (priority : Int) (now : Nat),
      (∃ item ∈ q, item.postId = postId) →
      queueDownload q postId priority now = q) ∧
    (∀ ops : List (String × Int × Nat),
      (enqueueAll [] ops).Pairwise (fun a b =>
        b.priority < a.priority ∨ (a.priority = b.priority ∧ a.addedAt ≤ b.addedAt))) := by
  constructor
  · intro q postId priority now hex
    unfold queueDownload
    rw [if_pos]
    rcases hex with ⟨item, hmem, hid⟩
    rw [List.any_eq_true]
    exact ⟨item, hmem, by simp [hid]⟩
  · intro ops
    exact enqueueAll_sorted ops [] (List.sorted_nil)

/-! ## Retry re-transfers completed media (C6) -/

/-- C6 evaluation: retrying a post whose single image is already completed
re-crawls it and unconditionally re-creates and re-downloads its media: the
transfer log records a fresh download of the completed item's url and the
media table ends with a duplicate record for it — no status re-check occurs. -/
theorem retry_retransfers_completed_media :
    (retryDownload wEnvOk "p1" wStateRetry).1.downloads =
      [("i1", "media/images/p1_0.jpg")] ∧
    ((retryDownload wEnvOk "p1" wStateRetry).1.db.media.filter
      (fun m => m.remoteUrl == "i1")).length = 2 ∧
    ((retryDownload wEnvOk "p1" wStateRetry).1.db.media.filter
      (fun m => m.downloadStatus == MediaDownloadStatus.completed)).length = 2 := by
  decide

/-! ## Progress fan-out (C8) -/

/-- C8 counterexample: with two subscribed listeners where the first throws,
forEach aborts: the second listener is never invoked and the exception
reaches the publisher, contradicting the claim that one listener's exception
neither prevents delivery to the rest nor propagates. -/
theorem listener_exception_stops_fanout_counterexample :
    notifyProgressFanout [{ id := 0, throws := true }, { id := 1, throws := false }] =
      ([0], true) ∧
    1 ∉ (notifyProgressFanout
      [{ id := 0, throws := true }, { id := 1, throws := false }]).1 := by
  decide

/-- C8 (amended): the fan-out invokes listeners in subscription order up to
and including the first throwing listener; that exception propagates to the
publisher and the remaining listeners are not invoked; when no listener
throws, every listener is invoked and nothing propagates. -/
theorem fanout_stops_at_first_throwing_listener :
    ∀ ls : List ListenerSpec,
      notifyProgressFanout ls =
        ((ls.take (ls.findIdx (fun l => l.throws) + 1)).map ListenerSpec.id,
         ls.any (fun l => l.throws)) := by
  intro ls
  induction ls with
  | nil => rfl
  | cons l rest ih =>
    by_cases h : l.throws
    · simp [notifyProgressFanout, List.findIdx_cons, h]
    · have h' : l.throws = false := by simpa using h
      simp [notifyProgressFanout, List.findIdx_cons, h', ih]

/-! ## Enrichment applied at most once (C10) -/

/-- Incrementing the cached post count of a group id that occurs exactly once
raises the total by exactly one. -/
theorem groups_sum_increment (l : List Group) (gid : Nat)
    (hnodup : (l.map Group.id).Nodup) (hmem : ∃ g ∈ l, g.id = gid) :
    ((l.map (fun g => if g.id == gid then { g with postCount := g.postCount + 1 } else g)).map
        Group.postCount).sum =
      (l.map Group.postCount).sum + 1 := by
  induction l with
  | nil =>
    obtain ⟨g, hg, -⟩ := hmem
    cases hg
  | cons g t ih =>
    simp only [List.map_cons, List.nodup_cons] at hnodup
    obtain ⟨hnotin, hnd⟩ := hnodup
    by_cases hg : g.id = gid
    · rw [List.map_cons, if_pos (by simpa using hg)]
      have htail : t.map (fun x => if x.id == gid then { x with postCount := x.postCount + 1 } else x) = t := by
        apply map_eq_self_of
        intro x hx
        have hxid : x.id ≠ gid := by
          intro hx'
          apply hnotin
          rw [hg, ← hx']
          exact List.mem_map_of_mem Group.id hx
        rw [if_neg (by simpa using hxid)]
      rw [htail, List.map_cons, List.map_cons, List.sum_cons, List.sum_cons]
      dsimp only
      omega
    · rw [List.map_cons, if_neg (by simpa using hg)]
      have hmemt : ∃ x ∈ t, x.id = gid := by
        obtain ⟨x, hx, hxid⟩ := hmem
        rcases List.mem_cons.mp hx with heq | hx'
        · exact absurd (heq ▸ hxid) hg
        · exact ⟨x, hx', hxid⟩
      rw [List.map_cons, List.map_cons, List.sum_cons, List.sum_cons, ih hnd hmemt]
      omega

theorem incrementGroupPostCount_sum (db : DbState) (gid : Nat)
    (hnodup : (db.groups.map Group.id).Nodup)
    (hmem : ∃ g ∈ db.groups, g.id = gid) :
    groupSum (incrementGroupPostCount db gid) = groupSum db + 1 := by
  unfold groupSum incrementGroupPostCount
  dsimp only
  exact groups_sum_increment db.groups gid hnodup hmem

/-- Incrementing a post count changes no group id. -/
theorem incrementGroupPostCount_ids (db : DbState) (gid : Nat) :
    (incrementGroupPostCount db gid).groups.map Group.id = db.groups.map Group.id := by
  unfold incrementGroupPostCount
  dsimp only
  rw [List.map_map]
  apply map_congr_fn
  intro g _
  by_cases h : (g.id == gid) = true
  · simp [Function.comp, h]
  · have h' : (g.id == gid) = false := by simpa using h
    simp [Function.comp, h']

theorem incrementGroupPostCount_lt (db : DbState) (gid n : Nat)
    (hlt : ∀ g ∈ db.groups, g.id < n) :
    ∀ g ∈ (incrementGroupPostCount db gid).groups, g.id < n := by
  intro g hg
  unfold incrementGroupPostCount at hg
  dsimp only at hg
  obtain ⟨g0, hg0, hfg⟩ := List.mem_map.mp hg
  by_cases h : (g0.id == gid) = true
  · rw [if_pos h] at hfg
    rw [← hfg]
    exact hlt g0 hg0
  · rw [if_neg h] at hfg
    rw [← hfg]
    exact hlt g0 hg0

theorem incrementGroupPostCount_nextId (db : DbState) (gid : Nat) :
    (incrementGroupPostCount db gid).nextId = db.nextId := rfl

theorem createAIResult_groups (db : DbState) (inp : CreateAIResultInput) :
    (createAIResult db inp).1.groups = db.groups := rfl

theorem createAIResult_nextId (db : DbState) (inp : CreateAIResultInput) :
    (createAIResult db inp).1.nextId = db.nextId + 1 := rfl

theorem groupSum_createAIResult (db : DbState) (inp : CreateAIResultInput) :
    groupSum (createAIResult db inp).1 = groupSum db := rfl

theorem groupSum_congr (db db' : DbState) (h : db.groups = db'.groups) :
    groupSum db = groupSum db' := by
  unfold groupSum
  rw [h]

theorem hasAIResult_congr (db db' : DbState) (pid : String)
    (h : db.aiResults = db'.aiResults) : hasAIResult db pid = hasAIResult db' pid := by
  unfold hasAIResult getAIResultByPostId
  rw [h]

/-- The row createAIResult appends is found for its own post id. -/
theorem hasAIResult_createAIResult (db : DbState) (inp : CreateAIResultInput) :
    hasAIResult (createAIResult db inp).1 inp.postId = true := by
  unfold hasAIResult getAIResultByPostId createAIResult
  dsimp only
  rw [List.find?_append]
  cases hf : db.aiResults.find? (fun r => r.postId == inp.postId) with
  | some r => rfl
  | none => simp

/-- getOrCreateGroup under the id invariants: the total post count is
unchanged, the returned group's id occurs among the groups, ids stay distinct
and below the counter, and the AIResult table is untouched. -/
theorem getOrCreateGroup_facts (db : DbState) (name : String)
    (hlt : ∀ g ∈ db.groups, g.id < db.nextId)
    (hnodup : (db.groups.map Group.id).Nodup) :
    groupSum (getOrCreateGroup db name).1 = groupSum db ∧
    (∃ g ∈ (getOrCreateGroup db name).1.groups, g.id = (getOrCreateGroup db name).2.id) ∧
    ((getOrCreateGroup db name).1.groups.map Group.id).Nodup ∧
    (∀ g ∈ (getOrCreateGroup db name).1.groups, g.id < (getOrCreateGroup db name).1.nextId) ∧
    (getOrCreateGroup db name).1.aiResults = db.aiResults ∧
    db.nextId ≤ (getOrCreateGroup db name).1.nextId := by
  unfold getOrCreateGroup
  cases hgb : getGroupByName db name with
  | some ex =>
    refine ⟨rfl, ⟨ex, ?_, rfl⟩, hnodup, hlt, rfl, le_refl _⟩
    exact List.mem_of_find?_eq_some hgb
  | none =>
    unfold createGroup
    dsimp only
    refine ⟨?_, ⟨{ id := db.nextId, name := name, postCount := 0 }, ?_, rfl⟩, ?_, ?_, rfl, ?_⟩
    · unfold groupSum
      simp
    · simp
    · rw [List.map_append]
      rw [List.nodup_append]
      refine ⟨hnodup, List.nodup_singleton _, ?_⟩
      intro a ha hb
      simp only [List.map_cons, List.map_nil, List.mem_singleton] at hb
      obtain ⟨g0, hg0, hga⟩ := List.mem_map.mp ha
      have := hlt g0 hg0
      omega
    · intro g hg
      rcases List.mem_append.mp hg with h | h
      · have := hlt g h
        omega
      · simp only [List.mem_singleton] at h
        rw [h]
        exact Nat.lt_succ_self _
    · exact Nat.le_succ _

/-- The media stage never touches the groups or AIResult tables and only
moves the id counter forward. -/
theorem downloadMedia_frame (env : Env) (postId : String) (items : List MediaItem)
    (onP : ℚ → RunState → RunState) (ev : ℚ → ProgressEvent)
    (hOnP : ∀ q s, onP q s = { s with trace := s.trace ++ [ev q] })
    (s : RunState) (hwf : ∀ m ∈ s.db.media, m.id < s.db.nextId) :
    (downloadMedia env postId items onP s).1.db.groups = s.db.groups ∧
    (downloadMedia env postId items onP s).1.db.aiResults = s.db.aiResults ∧
    s.db.nextId ≤ (downloadMedia env postId items onP s).1.db.nextId := by
  by_cases hne : items = []
  · subst hne
    rw [downloadMedia_spec_empty env postId onP ev hOnP s]
    exact ⟨rfl, rfl, le_refl _⟩
  · rw [downloadMedia_spec env postId items onP ev hOnP s hwf hne]
    exact ⟨rfl, rfl, Nat.le_add_right _ _⟩

/-- The enrichment composite analyzePost runs on a fresh analysis with a
suggested group name: get-or-create the group, bump its post count, store the
AIResult row.  The total post count rises by exactly one, the stored row is
found for its post id, and the id invariants survive. -/
theorem enrich_group_step (db : DbState) (name : String) (inp : CreateAIResultInput)
    (hlt : ∀ g ∈ db.groups, g.id < db.nextId)
    (hnodup : (db.groups.map Group.id).Nodup) :
    groupSum (createAIResult (incrementGroupPostCount (getOrCreateGroup db name).1
        (getOrCreateGroup db name).2.id) inp).1 = groupSum db + 1 ∧
    hasAIResult (createAIResult (incrementGroupPostCount (getOrCreateGroup db name).1
        (getOrCreateGroup db name).2.id) inp).1 inp.postId = true ∧
    (∀ g ∈ (createAIResult (incrementGroupPostCount (getOrCreateGroup db name).1
        (getOrCreateGroup db name).2.id) inp).1.groups,
      g.id < (createAIResult (incrementGroupPostCount (getOrCreateGroup db name).1
        (getOrCreateGroup db name).2.id) inp).1.nextId) ∧
    ((createAIResult (incrementGroupPostCount (getOrCreateGroup db name).1
        (getOrCreateGroup db name).2.id) inp).1.groups.map Group.id).Nodup := by
  obtain ⟨hsum, hmem, hnd1, hlt1, -, -⟩ := getOrCreateGroup_facts db name hlt hnodup
  have hinc := incrementGroupPostCount_sum (getOrCreateGroup db name).1
    (getOrCreateGroup db name).2.id hnd1 hmem
  refine ⟨?_, hasAIResult_createAIResult _ _, ?_, ?_⟩
  · rw [groupSum_createAIResult, hinc, hsum]
  · rw [createAIResult_nextId, incrementGroupPostCount_nextId]
    intro g hg
    rw [createAIResult_groups] at hg
    exact Nat.lt_succ_of_lt (incrementGroupPostCount_lt _ _ _ hlt1 g hg)
  · rw [createAIResult_groups, incrementGroupPostCount_ids]
    exact hnd1

/-- analyzePost case analysis for the enrichment tables: an existing AIResult
short-circuits the call and returns the state unchanged; otherwise the total
group post count either stays put or rises by exactly one together with a
stored AIResult row for the post; an existing row survives; the group id
invariants survive. -/
theorem analyzePost_group_cases (env : Env) (pid : String) (X : RunState)
    (hlt : ∀ g ∈ X.db.groups, g.id < X.db.nextId)
    (hnodup : (X.db.groups.map Group.id).Nodup) :
    (hasAIResult X.db pid = true → (analyzePost env pid X).1 = X) ∧
    (groupSum (analyzePost env pid X).1.db = groupSum X.db ∨
      (groupSum (analyzePost env pid X).1.db = groupSum X.db + 1 ∧
       hasAIResult (analyzePost env pid X).1.db pid = true)) ∧
    (hasAIResult X.db pid = true → hasAIResult (analyzePost env pid X).1.db pid = true) ∧
    (∀ g ∈ (analyzePost env pid X).1.db.groups,
        g.id < (analyzePost env pid X).1.db.nextId) ∧
    ((analyzePost env pid X).1.db.groups.map Group.id).Nodup := by
  unfold analyzePost
  split
  · exact ⟨fun _ => rfl, Or.inl rfl, fun h => h, hlt, hnodup⟩
  · next h0 =>
    have hA0 : hasAIResult X.db pid = false := by
      unfold hasAIResult
      rw [h0]
      rfl
    have hvac : ∀ P : Prop, hasAIResult X.db pid = true → P := by
      intro P h
      rw [hA0] at h
      cases h
    split
    · exact ⟨hvac _, Or.inl rfl, hvac _, hlt, hnodup⟩
    · dsimp only
      split
      · dsimp only
        split
        · next name hname =>
          split
          · exact ⟨hvac _,
              Or.inr ⟨(enrich_group_step X.db name _ hlt hnodup).1,
                (enrich_group_step X.db name _ hlt hnodup).2.1⟩,
              hvac _,
              (enrich_group_step X.db name _ hlt hnodup).2.2.1,
              (enrich_group_step X.db name _ hlt hnodup).2.2.2⟩
          · exact ⟨hvac _, Or.inl rfl, hvac _,
              fun g hg => Nat.lt_succ_of_lt (hlt g hg), hnodup⟩
        · exact ⟨hvac _, Or.inl rfl, hvac _,
            fun g hg => Nat.lt_succ_of_lt (hlt g hg), hnodup⟩
      · exact ⟨hvac _, Or.inl rfl, hvac _, hlt, hnodup⟩

/-- One full run seen from the enrichment tables: the id invariants survive,
an existing AIResult row freezes the group totals, and in any case the total
group post count either stays put or rises by exactly one together with a
stored AIResult row for the post. -/
theorem downloadPost_group_step (env : Env) (postId : String) (t : RunState)
    (hwf : WFdb t.db) :
    WFdb (downloadPost env postId t).1.db ∧
    (hasAIResult t.db postId = true →
      groupSum (downloadPost env postId t).1.db = groupSum t.db ∧
      hasAIResult (downloadPost env postId t).1.db postId = true) ∧
    (groupSum (downloadPost env postId t).1.db = groupSum t.db ∨
      (groupSum (downloadPost env postId t).1.db = groupSum t.db + 1 ∧
       hasAIResult (downloadPost env postId t).1.db postId = true)) := by
  obtain ⟨hwm, hglt, hgnd⟩ := hwf
  cases hcase : getPostById t.db postId with
  | none =>
    rw [downloadPost_notfound env postId t hcase]
    exact ⟨⟨hwm, hglt, hgnd⟩, fun h => ⟨rfl, h⟩, Or.inl rfl⟩
  | some post =>
    cases hs : (env.crawl post.url).success with
    | false =>
      rw [downloadPost_crawl_failed env postId t post hcase (Or.inl hs)]
      exact ⟨⟨hwm, hglt, hgnd⟩, fun h => ⟨rfl, h⟩, Or.inl rfl⟩
    | true =>
      cases hc : (env.crawl post.url).content with
      | none =>
        rw [downloadPost_crawl_failed env postId t post hcase (Or.inr hc)]
        exact ⟨⟨hwm, hglt, hgnd⟩, fun h => ⟨rfl, h⟩, Or.inl rfl⟩
      | some c =>
        have hstep := downloadPost_staged env postId t post c hcase hs hc
        set sF : RunState := notifyProgress
          (downloadMedia env postId c.media
            (fun mediaProgress s => notifyProgress s postId (0.4 + mediaProgress * 0.45) .downloading)
            (stateAfterContent t postId c)).1 postId 0.85 .downloading with hsF
        obtain ⟨hfg, hfa, hfn⟩ := downloadMedia_frame env postId c.media
          (fun mediaProgress s => notifyProgress s postId (0.4 + mediaProgress * 0.45) .downloading)
          (fun q => { postId := postId, progress := 0.4 + q * 0.45, status := .downloading })
          (fun q st => rfl) (stateAfterContent t postId c)
          (stateAfterContent_wf t postId c hwm)
        have hsFg : sF.db.groups = t.db.groups := by
          rw [hsF]
          show (downloadMedia env postId c.media _ (stateAfterContent t postId c)).1.db.groups = _
          rw [hfg, stateAfterContent_db, dbAfterContent_groups]
        have hsFa : sF.db.aiResults = t.db.aiResults := by
          rw [hsF]
          show (downloadMedia env postId c.media _ (stateAfterContent t postId c)).1.db.aiResults = _
          rw [hfa, stateAfterContent_db, dbAfterContent_aiResults]
        have hsFn : t.db.nextId ≤ sF.db.nextId := by
          rw [hsF]
          show t.db.nextId ≤ (downloadMedia env postId c.media _ (stateAfterContent t postId c)).1.db.nextId
          refine le_trans ?_ hfn
          rw [stateAfterContent_db]
          exact dbAfterContent_nextId_ge t postId c
        have hlt' : ∀ g ∈ sF.db.groups, g.id < sF.db.nextId := by
          rw [hsFg]
          exact fun g hg => lt_of_lt_of_le (hglt g hg) hsFn
        have hnd' : (sF.db.groups.map Group.id).Nodup := by
          rw [hsFg]
          exact hgnd
        obtain ⟨ha1, ha2, ha3, ha4, ha5⟩ := analyzePost_group_cases env postId sF hlt' hnd'
        have hDg : (downloadPost env postId t).1.db.groups =
            (analyzePost env postId sF).1.db.groups := by
          rw [hstep]
          rfl
        have hDa : (downloadPost env postId t).1.db.aiResults =
            (analyzePost env postId sF).1.db.aiResults := by
          rw [hstep]
          rfl
        have hDn : (downloadPost env postId t).1.db.nextId =
            (analyzePost env postId sF).1.db.nextId := by
          rw [hstep]
          rfl
        refine ⟨⟨downloadPost_preserves_wf env postId t hwm, ?_, ?_⟩, ?_, ?_⟩
        · intro g hg
          rw [hDg] at hg
          rw [hDn]
          exact ha4 g hg
        · rw [hDg]
          exact ha5
        · intro hA
          have hAsF : hasAIResult sF.db postId = true := by
            rw [hasAIResult_congr sF.db t.db postId hsFa]
            exact hA
          have hEq := ha1 hAsF
          constructor
          · rw [groupSum_congr _ _ hDg, hEq, groupSum_congr _ _ hsFg]
          · rw [hasAIResult_congr _ _ postId hDa, hEq,
              hasAIResult_congr _ _ postId hsFa]
            exact hA
        · rcases ha2 with h | ⟨h1, h2⟩
          · left
            rw [groupSum_congr _ _ hDg, h, groupSum_congr _ _ hsFg]
          · right
            constructor
            · rw [groupSum_congr _ _ hDg, h1, groupSum_congr _ _ hsFg]
            · rw [hasAIResult_congr _ _ postId hDa]
              exact h2

/-- Across any sequence of runs of one post, an existing AIResult row freezes
the group totals, and in general the total group post count rises by at most
one. -/
theorem runAll_group_bound (postId : String) (envs : List Env) :
    ∀ s : RunState, WFdb s.db →
      (hasAIResult s.db postId = true →
        groupSum (runAll postId envs s).db = groupSum s.db) ∧
      groupSum (runAll postId envs s).db ≤ groupSum s.db + 1 := by
  induction envs with
  | nil =>
    intro s hwf
    exact ⟨fun _ => rfl, Nat.le_succ _⟩
  | cons env rest ih =>
    intro s hwf
    obtain ⟨hwf1, himp, hdisj⟩ := downloadPost_group_step env postId s hwf
    obtain ⟨ih1, ih2⟩ := ih (downloadPost env postId s).1 hwf1
    constructor
    · intro hA
      obtain ⟨hsum, hA1⟩ := himp hA
      show groupSum (runAll postId rest (downloadPost env postId s).1).db = groupSum s.db
      rw [ih1 hA1, hsum]
    · show groupSum (runAll postId rest (downloadPost env postId s).1).db ≤ groupSum s.db + 1
      rcases hdisj with h | ⟨h1, h2⟩
      · rw [← h]
        exact ih2
      · rw [ih1 h2, h1]

/-- C10: the enrichment step is applied at most once per post.  (a) When an
AIResult row already exists for the post, analyzePost returns that existing
row with the run state unchanged: the analyze service is not called (the call
counter is part of the state) and no group's post count moves.  (b) Across
arbitrarily many runs and retries of one post — retryDownload being
downloadPost itself — the total of all groups' post counts rises by at most
one on its behalf. -/
theorem enrichment_applied_at_most_once (postId : String) :
    (∀ (env : Env) (X : RunState) (r : AIResult),
        getAIResultByPostId X.db postId = some r →
        analyzePost env postId X =
          (X, { success := true, aiResult := some r, errorMessage := none })) ∧
    (∀ (envs : List Env) (s : RunState), WFdb s.db →
        groupSum (runAll postId envs s).db ≤ groupSum s.db + 1) := by
  constructor
  · intro env X r h
    unfold analyzePost
    rw [h]
  · intro envs s hwf
    exact (runAll_group_bound postId envs s hwf).2

end Xhs
